import Mathlib

/-!
Shallow embedding of the core search engine of the taktician repository
(file ai/minimax.go): the transposition table, the history and response
tables, the zero-window and principal-variation searches, the
iterative-deepening driver Analyze, and the randomizing GetMove layer.

Positions are opaque: the engine consumes them through a narrow interface
(hash, game-over, evaluation, move application, stone counts), which is
modelled by the Game structure below.  Machine integers (Go int / int64 /
uint64) are modelled as Int and Nat; the one place where 64-bit wraparound
matters (the secondary-slot index computed from h * hashMul) carries an
explicit mod 2^64, and the left shift 1 << uint(depth) of recordCut is
modelled with its Go semantics (shift counts of 64 or more, including
negative depths cast to uint, give 0; a count of 63 wraps to the minimum
int64).

Mutable engine state (table, history, response, stack move slots, stats)
is threaded explicitly.  The cooperative cancellation flag, the wall
clock and the seeded PRNG are modelled as oracles indexed by the number
of reads performed so far, with the read counters kept in the state.
-/

namespace Minimax

/-- Move kinds: the engine itself only distinguishes passes (null moves),
slides (for the slide-reduction heuristic) and everything else. -/
inductive MoveKind
  | place
  | slide
  | pass
deriving DecidableEq, Repr

/-- Modelled from the spec: tak.Move is an external value type with a stable
integer hash, a kind, board coordinates, a slide destination and a
slide-length vector (sections 3 and 6.1 of the spec); the tak package is not
part of the embedded source.  Only the fields the search engine reads are
modelled. -/
structure Move where
  hash : Nat
  kind : MoveKind
  x : Int
  y : Int
  destX : Int
  destY : Int
  slides : List Int
deriving DecidableEq, Repr

/-- Move constructed by zwSearch for the null move: tak.Move with Type Pass. -/
def passMove : Move :=
  { hash := 0, kind := MoveKind.pass, x := 0, y := 0, destX := 0, destY := 0, slides := [] }

/-- Placeholder move read when Go would index best[0] of an empty slice
(which panics; unreachable whenever the node has at least one legal move). -/
def noMove : Move :=
  { hash := 0, kind := MoveKind.place, x := 0, y := 0, destX := 0, destY := 0, slides := [] }

/-- Bound kinds of a table entry (lowerBound, exactBound, upperBound). -/
inductive Bound
  | lower
  | exact
  | upper
deriving DecidableEq, Repr

/-- tableEntry: hash, depth, value, bound, best move.  A zero hash marks an
empty slot. -/
structure TableEntry where
  hash : Nat
  depth : Int
  value : Int
  bound : Bound
  m : Move
deriving DecidableEq, Repr

/-- The all-zero table entry (Go zero value of tableEntry). -/
def emptyEntry : TableEntry :=
  { hash := 0, depth := 0, value := 0, bound := Bound.lower, m := noMove }

/-- Search statistics (struct Stats).  Counters are uint64, Depth is an int,
Canceled a bool, Elapsed a duration (modelled as Int). -/
structure Stats where
  depth : Int := 0
  canceled : Bool := false
  elapsed : Int := 0
  generated : Nat := 0
  evaluated : Nat := 0
  scout : Nat := 0
  terminal : Nat := 0
  visited : Nat := 0
  cutNodes : Nat := 0
  nullSearch : Nat := 0
  nullCut : Nat := 0
  cut0 : Nat := 0
  cut1 : Nat := 0
  cutSearch : Nat := 0
  reSearch : Nat := 0
  allNodes : Nat := 0
  ttHits : Nat := 0
  ttShortcut : Nat := 0
  extensions : Nat := 0
  reducedSlides : Nat := 0
  mcSearch : Nat := 0
  mcCut : Nat := 0
deriving DecidableEq, Repr

/-- Stats.Merge: the receiver (the per-iteration m.st) keeps its Depth,
Canceled and Elapsed fields and accumulates every counter of the other. -/
def mergeStats (s other : Stats) : Stats :=
  { s with
    generated := s.generated + other.generated
    evaluated := s.evaluated + other.evaluated
    scout := s.scout + other.scout
    terminal := s.terminal + other.terminal
    visited := s.visited + other.visited
    cutNodes := s.cutNodes + other.cutNodes
    nullSearch := s.nullSearch + other.nullSearch
    nullCut := s.nullCut + other.nullCut
    cut0 := s.cut0 + other.cut0
    cut1 := s.cut1 + other.cut1
    cutSearch := s.cutSearch + other.cutSearch
    reSearch := s.reSearch + other.reSearch
    allNodes := s.allNodes + other.allNodes
    ttHits := s.ttHits + other.ttHits
    ttShortcut := s.ttShortcut + other.ttShortcut
    extensions := s.extensions + other.extensions
    reducedSlides := s.reducedSlides + other.reducedSlides
    mcSearch := s.mcSearch + other.mcSearch
    mcCut := s.mcCut + other.mcCut }

/-- MinimaxConfig.  Debug only controls logging and has no semantic effect,
so it is omitted; the Evaluate override is part of the Game oracle. -/
structure MinimaxConfig where
  size : Int
  depth : Int
  seed : Int
  randomizeWindow : Int
  randomizeScale : Int
  noSort : Bool
  noTable : Bool
  noNullMove : Bool
  noExtendForces : Bool
  noReduceSlides : Bool
  noMultiCut : Bool
deriving DecidableEq, Repr

/-- The opaque game interface consumed by the engine, together with the
environment oracles.  Positions are identified by natural numbers.

Modelled from the spec: the tak.Position operations (section 6.1), the
evaluator (section 6.2), the ordered move generator (section 4.4: a cursor
over the legal moves of a position in heuristic order, supporting a reset
that restarts from the first move) and the bitboard popcount are external
collaborators whose code is not part of the embedded source; they enter as
oracle fields here.  cancelAt models the write-once cooperative
cancellation flag as observed by successive atomic loads, clock models
successive time.Now readings, and randAt models successive
rand.Int63n draws of the PRNG seeded in Analyze. -/
structure Game where
  size : Nat → Int
  hash : Nat → Nat
  over : Nat → Bool
  eval : Nat → Int
  applyMove : Nat → Move → Option Nat
  whiteStones : Nat → Int
  blackStones : Nat → Int
  occupiedCount : Nat → Nat
  stacksLen : Nat → Nat
  height : Nat → Int → Int
  gen : Nat → Int → Nat → Option TableEntry → List Move → List Move
  cancelAt : Nat → Bool
  clock : Nat → Int
  randAt : Nat → Int → Int

/-- Mutable engine state threaded through the search: the transposition
table (a flat array of 2^20 entries, modelled as a total function from slot
index to entry), the history counters (Go map with absent keys reading 0),
the response table (absent keys read as none), the per-ply stack move slots
stack[ply].m, the per-call stats block m.st, the engine depth field, and
the oracle read counters. -/
structure EngineState where
  table : Nat → TableEntry
  history : Nat → Int
  response : Nat → Option Move
  stackM : Nat → Move
  st : Stats
  engDepth : Int
  polls : Nat
  clocks : Nat
  rands : Nat

def maxEval : Int := 2 ^ 30

def minEval : Int := -maxEval

def winThreshold : Int := 2 ^ 29

def tableSize : Nat := 2 ^ 20

def multiCutSearch : Nat := 6

def multiCutThreshold : Nat := 3

def hashMul : Nat := 0x61C8864680B583EB

/-- Pointwise update of a total function, used for table slots, history
keys, response keys and stack slots. -/
def updF {α : Type} (f : Nat → α) (i : Nat) (v : α) : Nat → α :=
  fun j => if j = i then v else f j

/-- One atomic load of the cancellation flag. -/
def pollCancel (g : Game) (s : EngineState) : Bool × EngineState :=
  (g.cancelAt s.polls, { s with polls := s.polls + 1 })

/-- One time.Now reading. -/
def readClock (g : Game) (s : EngineState) : Int × EngineState :=
  (g.clock s.clocks, { s with clocks := s.clocks + 1 })

/-- One rand.Int63n(n) draw. -/
def randInt63n (g : Game) (s : EngineState) (n : Int) : Int × EngineState :=
  (g.randAt s.rands n, { s with rands := s.rands + 1 })

/-- Go truncating integer division (int / int rounds toward zero). -/
def goDiv (a b : Int) : Int := Int.tdiv a b

/-- Go expression 1 << uint(depth) at type int (64-bit): 2^depth for depths
0..62; the shift wraps to the minimum int64 at depth 63; any other depth
(negative, hence a shift count of at least 2^63 after the uint cast, or 64
and above) shifts the bit out entirely and gives 0. -/
def goShl1 (d : Int) : Int :=
  if 0 ≤ d ∧ d ≤ 62 then 2 ^ d.toNat
  else if d = 63 then -(2 ^ 63)
  else 0

/-- ttGet (minimax.go lines 192-207): probe the primary slot h mod T and
the secondary slot (h * hashMul) mod T for an entry whose hash is h. -/
def ttGet (cfg : MinimaxConfig) (s : EngineState) (h : Nat) : Option TableEntry :=
  if cfg.noTable then none
  else
    let i1 := h % tableSize
    let i2 := h * hashMul % 2 ^ 64 % tableSize
    if (s.table i1).hash = h then some (s.table i1)
    else if (s.table i2).hash = h then some (s.table i2)
    else none

/-- ttPut (minimax.go lines 209-222): with the table disabled, or when the
cancellation flag is observed set, no slot is returned; otherwise, if the
primary slot h mod T is occupied (nonzero hash), its entry is first copied
to the secondary slot, and the primary slot index is returned for the
caller to overwrite. -/
def ttPut (g : Game) (cfg : MinimaxConfig) (s : EngineState) (h : Nat) :
    Option Nat × EngineState :=
  if cfg.noTable then (none, s)
  else
    let (c, s) := pollCancel g s
    if c then (none, s)
    else
      let i1 := h % tableSize
      let i2 := h * hashMul % 2 ^ 64 % tableSize
      let s :=
        if (s.table i1).hash ≠ 0 then { s with table := updF s.table i2 (s.table i1) }
        else s
      (some i1, s)

/-- teSuffices (minimax.go lines 448-465): a stored entry settles the
window (α, β) at depth if it is deep enough and its bound is exact, or an
upper bound below α, or a lower bound above β; an exact entry holding a
proven-win magnitude settles any window regardless of its depth. -/
def teSuffices (te : TableEntry) (depth : Int) (α β : Int) : Bool :=
  (decide (depth ≤ te.depth) &&
    (decide (te.bound = Bound.exact) ||
      (decide (te.value < α) && decide (te.bound = Bound.upper)) ||
      (decide (β < te.value) && decide (te.bound = Bound.lower)))) ||
  (decide (te.bound = Bound.exact) &&
    (decide (winThreshold < te.value) || decide (te.value < -winThreshold)))

/-- recordCut (minimax.go lines 467-481): on a beta-cut at child index
move, bump the cut counters by bucket, add 1 << uint(depth) to the cutting
move's history counter, and for nonzero plies remember the move as the
response to the predecessor move. -/
def recordCut (s : EngineState) (m : Move) (move : Nat) (depth : Int) (ply : Nat) :
    EngineState :=
  let st := s.st
  let st := { st with cutNodes := st.cutNodes + 1 }
  let st :=
    if move = 1 then { st with cut0 := st.cut0 + 1 }
    else if move = 2 then { st with cut1 := st.cut1 + 1 }
    else { st with cutSearch := st.cutSearch + (move + 1) }
  let s := { s with st := st }
  let s := { s with history := updF s.history m.hash (s.history m.hash + goShl1 depth) }
  if 0 < ply then
    { s with response := updF s.response ((s.stackM (ply - 1)).hash) (some m) }
  else s

/-- nullMoveOK (minimax.go lines 735-752): a null move is admissible when
null-move pruning is enabled, the node is not the root, at least 3 plies of
depth remain, the predecessor move was not itself a pass, both reserves
hold at least 3 stones, and at least 4 board squares are unoccupied. -/
def nullMoveOK (g : Game) (cfg : MinimaxConfig) (s : EngineState) (ply : Nat)
    (depth : Int) (p : Nat) : Bool :=
  if cfg.noNullMove then false
  else if ply = 0 || depth < 3 then false
  else if (s.stackM (ply - 1)).kind = MoveKind.pass then false
  else if g.whiteStones p < 3 || g.blackStones p < 3 then false
  else if g.stacksLen p ≤ g.occupiedCount p + 3 then false
  else true

/-- Result of a recursive search call: the principal variation (none models
the nil slice that signals a cancelled or leaf return) and the value, with
the threaded engine state. -/
abbrev SearchRes := (Option (List Move) × Int) × EngineState

/-- Shape of a search routine: position, ply, depth, pv continuation, α,
cut flag, state. -/
abbrev SearchFn := Nat → Nat → Int → List Move → Int → Bool → EngineState → SearchRes

/-- Appending a possibly-nil Go slice: nil behaves as the empty list. -/
def olist (o : Option (List Move)) : List Move := o.getD []

/-- Modelled from the spec: the ordered move generator (section 4.4) is a
frame-local cursor, seeded with the ply, the (possibly reduced) depth, the
position, the surviving table entry and the PV continuation, that yields
each candidate move applied into the ply scratch position and skips
candidates that fail to apply; reset restarts it from the first move.  Its
code (movegen) is not part of the embedded source, so the candidate order
is the oracle Game.gen and the yielded pairs are the applicable candidates
in that order. -/
def genChildren (g : Game) (ply : Nat) (depth : Int) (p : Nat)
    (te : Option TableEntry) (pv : List Move) : List (Move × Nat) :=
  (g.gen ply depth p te pv).filterMap fun m => (g.applyMove p m).map fun c => (m, c)

/-- Transposition-table store of zwSearch (minimax.go lines 716-727): when
ttPut yields a slot, the slot is overwritten unconditionally with the
current hash, the current (possibly slide-reduced) depth, the first best
move, the value α, and a LOWER bound after a cut or an UPPER bound
otherwise (bumping AllNodes in the latter case). -/
def zwTTStore (g : Game) (cfg : MinimaxConfig) (p : Nat) (depth α : Int)
    (best : List Move) (didCut : Bool) (s : EngineState) : EngineState :=
  match ttPut g cfg s (g.hash p) with
  | (none, s) => s
  | (some i1, s) =>
    let e : TableEntry :=
      { hash := g.hash p, depth := depth, value := α, m := best.headD noMove,
        bound := if didCut then Bound.lower else Bound.upper }
    let s := { s with table := updF s.table i1 e }
    if didCut then s else { s with st.allNodes := s.st.allNodes + 1 }

/-- Multi-cut pre-scan loop of zwSearch (minimax.go lines 669-679): each
pre-scanned child is searched at depth-1-2 with window (-α-1, -α) and the
negated cut flag; when the running count of fail-high children reaches
multiCutThreshold, MCCut is bumped and the scan reports a cut.  The caller
passes at most multiCutSearch children. -/
def zwMultiCut (rec : SearchFn) (ply : Nat) (depth α : Int) (cut : Bool) :
    List (Move × Nat) → Nat → EngineState → Bool × EngineState
  | [], _cuts, s => (false, s)
  | (_m, child) :: rest, cuts, s =>
    let r := rec child (ply + 1) (depth - 1 - 2) [] (-α - 1) (!cut) s
    if α < -r.1.2 then
      if multiCutThreshold ≤ cuts + 1 then
        (true, { r.2 with st.mcCut := r.2.st.mcCut + 1 })
      else zwMultiCut rec ply depth α cut rest (cuts + 1) r.2
    else zwMultiCut rec ply depth α cut rest cuts r.2

/-- Outcome of the main child loop of zwSearch: either a cooperative
cancellation was observed (the search returns a nil pv and skips its table
store), or the loop finished with a best line and a cut flag. -/
inductive ZwLoopOut
  | canceled : EngineState → ZwLoopOut
  | done : List Move → Bool → EngineState → ZwLoopOut

/-- Main child loop of zwSearch (minimax.go lines 688-714): children are
searched at depth-1 with window (-α-1, -α) and negated cut flag; the first
child whose negated value exceeds α becomes the best line, is recorded as
a cut, and stops the loop; after every non-cutting child the cancellation
flag is polled. -/
def zwMainLoop (g : Game) (rec : SearchFn) (ply : Nat) (depth α : Int) (cut : Bool) :
    List (Move × Nat) → List Move → Nat → EngineState → ZwLoopOut
  | [], best, _i, s => ZwLoopOut.done best false s
  | (m, child) :: rest, best, i, s =>
    let i := i + 1
    let newpv := if best ≠ [] then best.tail else []
    let s := { s with stackM := updF s.stackM ply m }
    let r := rec child (ply + 1) (depth - 1) newpv (-α - 1) (!cut) s
    let v := -r.1.2
    let best := if best = [] then m :: olist r.1.1 else best
    if α < v then
      let best := m :: olist r.1.1
      ZwLoopOut.done best true (recordCut r.2 m i depth ply)
    else
      let pc := pollCancel g r.2
      if pc.1 then ZwLoopOut.canceled pc.2
      else zwMainLoop g rec ply depth α cut rest best i pc.2

/-- Tail of zwSearch after the multi-cut phase: run the main loop over the
full child list (the generator has been reset to the first move), store
the result in the table, and return (best, α+1) after a cut or (best, α)
otherwise; a cancellation observed inside the loop returns a nil pv and
value 0 without storing. -/
def zwMain (g : Game) (cfg : MinimaxConfig) (rec : SearchFn) (p : Nat) (ply : Nat)
    (depth : Int) (pv : List Move) (α : Int) (cut : Bool)
    (children : List (Move × Nat)) (s : EngineState) : SearchRes :=
  match zwMainLoop g rec ply depth α cut children pv 0 s with
  | ZwLoopOut.canceled s => ((none, 0), s)
  | ZwLoopOut.done best didCut s =>
    let s := zwTTStore g cfg p depth α best didCut s
    if didCut then ((some best, α + 1), s) else ((some best, α), s)

/-- Generator and multi-cut phase of zwSearch (minimax.go lines 654-686):
initialize the child cursor; when called with cut at depth above 3 and
multi-cut enabled, pre-scan at most multiCutSearch children and return
(nil, α+1) on a multi-cut; otherwise reset the generator and run the main
loop from the first move. -/
def zwGen (g : Game) (cfg : MinimaxConfig) (rec : SearchFn) (p : Nat) (ply : Nat)
    (depth : Int) (pv : List Move) (α : Int) (cut : Bool)
    (te : Option TableEntry) (s : EngineState) : SearchRes :=
  if cut = true ∧ 3 < depth ∧ cfg.noMultiCut = false then
    match zwMultiCut rec ply depth α cut ((genChildren g ply depth p te pv).take multiCutSearch)
      0 ({ s with st.mcSearch := s.st.mcSearch + 1 }) with
    | (true, s) => ((none, α + 1), s)
    | (false, s) => zwMain g cfg rec p ply depth pv α cut (genChildren g ply depth p te pv) s
  else zwMain g cfg rec p ply depth pv α cut (genChildren g ply depth p te pv) s

/-- Slide-reduction step of zwSearch (minimax.go lines 641-652): when
enabled at a non-root node whose predecessor move was a single slide that
emptied its origin and piled exactly its slide count onto its destination,
reduce the remaining depth by 2 and bump ReducedSlides. -/
def reduceSlide (g : Game) (cfg : MinimaxConfig) (ply : Nat) (depth : Int) (p : Nat)
    (s : EngineState) : Int × EngineState :=
  if cfg.noReduceSlides = false ∧ 0 < ply then
    let m := s.stackM (ply - 1)
    if m.kind = MoveKind.slide ∧ m.slides.length = 1 then
      let i := m.x + m.y * cfg.size
      let j := m.destX + m.destY * cfg.size
      if g.height p i = 0 ∧ g.height p j = m.slides.headD 0 then
        (depth - 2, { s with st.reducedSlides := s.st.reducedSlides + 1 })
      else (depth, s)
    else (depth, s)
  else (depth, s)

/-- Tail of zwSearch after the null-move phase: apply the slide reduction,
then continue with the generator, multi-cut and main phases at the reduced
depth. -/
def zwTail (g : Game) (cfg : MinimaxConfig) (rec : SearchFn) (p : Nat) (ply : Nat)
    (depth : Int) (pv : List Move) (α : Int) (cut : Bool)
    (te : Option TableEntry) (s : EngineState) : SearchRes :=
  let rs := reduceSlide g cfg ply depth p s
  zwGen g cfg rec p ply rs.1 pv α cut te rs.2

/-- Null-move phase of zwSearch (minimax.go lines 627-639): when the null
move is admissible, the pass is written into the ply move slot and applied;
on success a zero-window search at depth-3 with cut set is run, and if its
negated value reaches α+1 the search returns (nil, that value) at once,
bumping NullCut. -/
def zwNull (g : Game) (cfg : MinimaxConfig) (rec : SearchFn) (p : Nat) (ply : Nat)
    (depth : Int) (pv : List Move) (α : Int) (cut : Bool)
    (te : Option TableEntry) (s : EngineState) : SearchRes :=
  if nullMoveOK g cfg s ply depth p then
    let s := { s with stackM := updF s.stackM ply passMove }
    match g.applyMove p passMove with
    | some child =>
      let s := { s with st.nullSearch := s.st.nullSearch + 1 }
      let r := rec child (ply + 1) (depth - 3) [] (-α - 1) true s
      let v := -r.1.2
      if α + 1 ≤ v then ((none, v), { r.2 with st.nullCut := r.2.st.nullCut + 1 })
      else zwTail g cfg rec p ply depth pv α cut te r.2
    | none => zwTail g cfg rec p ply depth pv α cut te s
  else zwTail g cfg rec p ply depth pv α cut te s

/-- One unfolding of zwSearch (minimax.go lines 596-733): terminal and
depth-0 nodes return the static evaluation; otherwise the node is counted,
the table is probed against the window (α, α+1) and a sufficient entry
whose stored move still applies short-circuits the node; the surviving
entry feeds the move generator and the search continues with the
null-move, slide-reduction, multi-cut and main phases. -/
def zwStep (g : Game) (cfg : MinimaxConfig) (rec : SearchFn) (p : Nat) (ply : Nat)
    (depth : Int) (pv : List Move) (α : Int) (cut : Bool) (s : EngineState) : SearchRes :=
  if depth ≤ 0 ∨ g.over p = true then
    let st := { s.st with evaluated := s.st.evaluated + 1 }
    let st := if g.over p then { st with terminal := st.terminal + 1 } else st
    ((none, g.eval p), { s with st := st })
  else
    let s := { s with st := { s.st with visited := s.st.visited + 1, scout := s.st.scout + 1 } }
    match ttGet cfg s (g.hash p) with
    | some te =>
      let s := { s with st.ttHits := s.st.ttHits + 1 }
      if teSuffices te depth α (α + 1) then
        match g.applyMove p te.m with
        | some _ => ((some [te.m], te.value), { s with st.ttShortcut := s.st.ttShortcut + 1 })
        | none => zwNull g cfg rec p ply depth pv α cut none s
      else zwNull g cfg rec p ply depth pv α cut (some te) s
    | none => zwNull g cfg rec p ply depth pv α cut none s

/-- zwSearch with a fuel bound on the recursion depth.  Every recursive
call strictly decreases the remaining depth and a nonpositive depth
returns immediately, so any fuel beyond the depth reproduces the Go
recursion exactly; fuel 0 is never consulted on such calls. -/
def zwSearch (g : Game) (cfg : MinimaxConfig) : Nat → SearchFn
  | 0 => fun _ _ _ _ _ _ s => ((none, 0), s)
  | fuel + 1 => zwStep g cfg (zwSearch g cfg fuel)

/-- Shape of the principal-variation search: position, ply, depth, pv
continuation, α, β, state. -/
abbrev PvFn := Nat → Nat → Int → List Move → Int → Int → EngineState → SearchRes

/-- Outcome of the main child loop of pvSearch: a cancellation (nil pv, no
table store) or the final best line, raised α and improved flag. -/
inductive PvLoopOut
  | canceled : EngineState → PvLoopOut
  | done : List Move → Int → Bool → EngineState → PvLoopOut

/-- Transposition-table store of pvSearch (minimax.go lines 577-591): when
ttPut yields the primary slot, the slot is overwritten only if it holds a
foreign hash or its stored depth does not exceed the new depth (the
displacement copy of ttPut has already happened either way); the bound is
UPPER when α was never raised (bumping AllNodes), LOWER on a beta cut and
EXACT otherwise. -/
def pvTTStore (g : Game) (cfg : MinimaxConfig) (p : Nat) (depth α β : Int)
    (best : List Move) (improved : Bool) (s : EngineState) : EngineState :=
  match ttPut g cfg s (g.hash p) with
  | (none, s) => s
  | (some i1, s) =>
    if (s.table i1).hash ≠ g.hash p ∨ (s.table i1).depth ≤ depth then
      let bound := if improved = false then Bound.upper
        else if β ≤ α then Bound.lower else Bound.exact
      let e : TableEntry :=
        { hash := g.hash p, depth := depth, value := α, m := best.headD noMove, bound := bound }
      let s := { s with table := updF s.table i1 e }
      if improved = false then { s with st.allNodes := s.st.allNodes + 1 } else s
    else s

/-- Main child loop of pvSearch (minimax.go lines 533-575): the first child
is searched with the full window; later children are scouted with a
zero-window search and re-searched with the full window when the scout
value lands strictly inside (α, β); a child beating α becomes the best
line and raises α, and reaching β records a cut and stops the loop; the
cancellation flag is polled after every non-cutting child. -/
def pvChildSearch (recPv : PvFn) (recZw : SearchFn) (ply : Nat) (depth β : Int)
    (newpv : List Move) (α : Int) (i : Nat) (child : Nat) (s : EngineState) : SearchRes :=
  if 1 < i then
    let rz := recZw child (ply + 1) (depth - 1) newpv (-α - 1) true s
    if α < -rz.1.2 ∧ -rz.1.2 < β then
      let s := { rz.2 with st.reSearch := rz.2.st.reSearch + 1 }
      recPv child (ply + 1) (depth - 1) newpv (-β) (-α) s
    else rz
  else recPv child (ply + 1) (depth - 1) newpv (-β) (-α) s

def pvMainLoop (g : Game) (recPv : PvFn) (recZw : SearchFn) (ply : Nat) (depth β : Int) :
    List (Move × Nat) → List Move → Int → Bool → Nat → EngineState → PvLoopOut
  | [], best, α, improved, _i, s => PvLoopOut.done best α improved s
  | (m, child) :: rest, best, α, improved, i, s =>
    let i := i + 1
    let newpv := if best ≠ [] then best.tail else []
    let s := { s with stackM := updF s.stackM ply m }
    let r := pvChildSearch recPv recZw ply depth β newpv α i child s
    let v := -r.1.2
    let best := if best = [] then m :: olist r.1.1 else best
    if α < v then
      let best := m :: olist r.1.1
      let α := v
      if β ≤ α then PvLoopOut.done best α true (recordCut r.2 m i depth ply)
      else
        let pc := pollCancel g r.2
        if pc.1 then PvLoopOut.canceled pc.2
        else pvMainLoop g recPv recZw ply depth β rest best α true i pc.2
    else
      let pc := pollCancel g r.2
      if pc.1 then PvLoopOut.canceled pc.2
      else pvMainLoop g recPv recZw ply depth β rest best α improved i pc.2

/-- One unfolding of pvSearch (minimax.go lines 483-594): terminal and
depth-0 nodes return the static evaluation; otherwise the node is counted
(also as a scout node when the window is zero), the table is probed
against (α, β) and a sufficient entry whose stored move still applies
short-circuits the node; the surviving entry feeds the move generator, the
child loop runs starting from the supplied pv continuation, and the result
is stored under the depth-preferring replacement policy. -/
def pvStep (g : Game) (cfg : MinimaxConfig) (recPv : PvFn) (recZw : SearchFn) (p : Nat)
    (ply : Nat) (depth : Int) (pv : List Move) (α β : Int) (s : EngineState) : SearchRes :=
  if depth ≤ 0 ∨ g.over p = true then
    let st := { s.st with evaluated := s.st.evaluated + 1 }
    let st := if g.over p then { st with terminal := st.terminal + 1 } else st
    ((none, g.eval p), { s with st := st })
  else
    let s := { s with st := { s.st with visited := s.st.visited + 1 } }
    let s := if β = α + 1 then { s with st.scout := s.st.scout + 1 } else s
    let cont := fun (te : Option TableEntry) (s : EngineState) =>
      let children := genChildren g ply depth p te pv
      match pvMainLoop g recPv recZw ply depth β children pv α false 0 s with
      | PvLoopOut.canceled s => (((none : Option (List Move)), (0 : Int)), s)
      | PvLoopOut.done best α improved s =>
        let s := pvTTStore g cfg p depth α β best improved s
        ((some best, α), s)
    match ttGet cfg s (g.hash p) with
    | some te =>
      let s := { s with st.ttHits := s.st.ttHits + 1 }
      if teSuffices te depth α β then
        match g.applyMove p te.m with
        | some _ => ((some [te.m], te.value), { s with st.ttShortcut := s.st.ttShortcut + 1 })
        | none => cont none s
      else cont (some te) s
    | none => cont none s

/-- pvSearch with a fuel bound on the recursion depth; as with zwSearch,
any fuel beyond the remaining depth reproduces the Go recursion exactly. -/
def pvSearch (g : Game) (cfg : MinimaxConfig) : Nat → PvFn
  | 0 => fun _ _ _ _ _ _ s => ((none, 0), s)
  | fuel + 1 => pvStep g cfg (pvSearch g cfg fuel) (zwSearch g cfg fuel)

/-- Result of Analyze: either the preflight size check fired (Go panics;
the carried state is the engine state at the panic, untouched), or the
search finished with a principal variation, a value and stats. -/
inductive AnalyzeRes
  | panicked : EngineState → AnalyzeRes
  | ok : List Move → Int → Stats → EngineState → AnalyzeRes

/-- Principal variation of an Analyze result (empty on a panic). -/
def analyzePV : AnalyzeRes → List Move
  | AnalyzeRes.panicked _ => []
  | AnalyzeRes.ok pv _ _ _ => pv

/-- Value of an Analyze result (0 on a panic). -/
def analyzeValue : AnalyzeRes → Int
  | AnalyzeRes.panicked _ => 0
  | AnalyzeRes.ok _ v _ _ => v

/-- Stats of an Analyze result (zero stats on a panic). -/
def analyzeStats : AnalyzeRes → Stats
  | AnalyzeRes.panicked _ => {}
  | AnalyzeRes.ok _ _ st _ => st

/-- Final engine state of an Analyze result. -/
def analyzeState : AnalyzeRes → EngineState
  | AnalyzeRes.panicked s => s
  | AnalyzeRes.ok _ _ _ s => s

/-- Prelude of Analyze (minimax.go lines 326-358), run after the size
check: age every history counter by integer-halving it, consume a clock
reading for the seed when the configured seed is zero, reset the PRNG
stream, take the top timestamp, and seed the deepening base and initial PV
from an EXACT table entry for the root hash when one exists.  Returns
(base, seeded pv, top, state). -/
def analyzePrelude (g : Game) (cfg : MinimaxConfig) (p : Nat) (s : EngineState) :
    Int × List Move × Int × EngineState :=
  let s := { s with history := fun k => goDiv (s.history k) 2 }
  let s := if cfg.seed = 0 then (readClock g s).2 else s
  let s := { s with rands := 0 }
  let tc := readClock g s
  match ttGet cfg tc.2 (g.hash p) with
  | some te =>
    if te.bound = Bound.exact then (te.depth, [te.m], tc.1, tc.2)
    else (0, [], tc.1, tc.2)
  | none => (0, [], tc.1, tc.2)

/-- Deadline estimate of the deepening loop (minimax.go lines 416-438):
performed whenever a deadline is set and the just-finished iteration was
not the final configured depth; the branching estimate is
2 * branchSum / (i - 1) when i exceeds 2 and the conservative constant 20
otherwise, and the loop stops when the estimated completion time of the
next iteration lies beyond the deadline. -/
def analyzeDeadlineCheck (g : Game) (cfg : MinimaxConfig) (limited : Bool)
    (deadline base : Int) (i : Nat) (branchSum : Nat) (start : Int) (s : EngineState) :
    Bool × EngineState :=
  if limited = true ∧ (i : Int) + base ≠ cfg.depth then
    let branch : Nat := if 2 < i then 2 * branchSum / (i - 1) else 20
    let c1 := readClock g s
    let c2 := readClock g c1.2
    let estimate := c1.1 + (c2.1 - start) * (branch : Int)
    (decide (deadline < estimate), c2.2)
  else (false, s)

/-- Deepening loop of Analyze (minimax.go lines 361-439): while the depth
cap allows, reset the per-iteration stats, search the root with the full
window at depth i+base seeded with the previous PV, and stop with
Canceled set when the search returns a nil PV or the cancellation flag is
observed; otherwise adopt the value and PV, merge stats, accumulate the
branching ratio for iterations beyond the first, and stop on a proven win
or on the deadline estimate. -/
def analyzeLoop (g : Game) (cfg : MinimaxConfig) (limited : Bool) (deadline : Int)
    (p : Nat) (base : Int) :
    Nat → Nat → List Move → Int → Nat → Nat → Stats → EngineState →
    (List Move × Int × Stats) × EngineState
  | 0, _i, ms, v, _prevEval, _branchSum, st, s => ((ms, v, st), s)
  | fuel + 1, i, ms, v, prevEval, branchSum, st, s =>
    if (i : Int) + base ≤ cfg.depth then
      let s := { s with st := { depth := (i : Int) + base } }
      let sc := readClock g s
      let start := sc.1
      let s := { sc.2 with engDepth := (i : Int) + base }
      let r := pvSearch g cfg (((i : Int) + base).toNat + 1) p 0 ((i : Int) + base) ms
        (minEval - 1) (maxEval + 1) s
      match r.1.1 with
      | none => ((ms, v, { st with canceled := true }), r.2)
      | some next =>
        let pc := pollCancel g r.2
        if pc.1 then ((ms, v, { st with canceled := true }), pc.2)
        else
          let s := pc.2
          let v := r.1.2
          let st := mergeStats s.st st
          let ms := next
          let c1 := readClock g s
          let c2 := readClock g c1.2
          let s := c2.2
          let branchSum := if 1 < i then branchSum + s.st.evaluated / (prevEval + 1) else branchSum
          let prevEval := s.st.evaluated
          if winThreshold < v ∨ v < -winThreshold then ((ms, v, st), s)
          else
            let dc := analyzeDeadlineCheck g cfg limited deadline base i branchSum start s
            if dc.1 then ((ms, v, st), dc.2)
            else analyzeLoop g cfg limited deadline p base fuel (i + 1) ms v prevEval branchSum st dc.2
    else ((ms, v, st), s)

/-- Analyze (minimax.go lines 322-442): the preflight size check (a panic
on mismatch, before any state is touched), the prelude, the deepening
loop, and the final Elapsed stamp.  The context deadline is the pair
(limited, deadline); loopFuel bounds the number of deepening iterations
(the Go loop runs at most cfg.Depth - base of them, so any fuel of at
least that reproduces it). -/
def analyze (g : Game) (cfg : MinimaxConfig) (limited : Bool) (deadline : Int)
    (loopFuel : Nat) (p : Nat) (s : EngineState) : AnalyzeRes :=
  if cfg.size ≠ g.size p then AnalyzeRes.panicked s
  else
    let pre := analyzePrelude g cfg p s
    let r := analyzeLoop g cfg limited deadline p pre.1 loopFuel 1 pre.2.1 0 0 0 {} pre.2.2.2
    let ec := readClock g r.2
    AnalyzeRes.ok r.1.1 r.1.2.1 { r.1.2.2 with elapsed := ec.1 - pre.2.2.1 } ec.2

/-- Score the GetMove randomization loop computes for a root child
(minimax.go lines 264-266): the negation of a pvSearch over the window
(-v-1, -base) at depth one less than the last completed iteration. -/
def getMoveChildScore (g : Game) (cfg : MinimaxConfig) (depthSt v base : Int)
    (pvtail : List Move) (child : Nat) (s : EngineState) : Int :=
  -(pvSearch g cfg ((depthSt - 1).toNat + 1) child 1 (depthSt - 1) pvtail
      (-v - 1) (-base) s).1.2

/-- Spec-modelled child score for the GetMove randomization loop, following
the spec sentence for section 4.7 word for word: the score cv of each
child is computed by the zero-window scout search, cv = -zwSearch(child,
ply 1, depth st.Depth-1, pv[1:], α = -v-1, cut).  This definition exists
only to be compared with getMoveChildScore, which embeds the source. -/
def specZWChildScore (g : Game) (cfg : MinimaxConfig) (depthSt v : Int)
    (pvtail : List Move) (child : Nat) (cut : Bool) (s : EngineState) : Int :=
  -(zwSearch g cfg ((depthSt - 1).toNat + 1) child 1 (depthSt - 1) pvtail
      (-v - 1) cut s).1.2

/-- Randomization loop of GetMove (minimax.go lines 262-279): each root
child is scored with a pvSearch over (-v-1, -base); children scoring at
most base are skipped; the others add (cv - base) / scale points to the
running total i, and the child replaces the selection when
rand.Int63n(i) is at most its points (weighted reservoir sampling). -/
def getMoveLoop (g : Game) (cfg : MinimaxConfig) (depthSt v base : Int)
    (pvtail : List Move) :
    List (Move × Nat) → Int → Move → EngineState → Move × EngineState
  | [], _i, rv, s => (rv, s)
  | (m, child) :: rest, i, rv, s =>
    let s := { s with stackM := updF s.stackM 0 m }
    let r := pvSearch g cfg ((depthSt - 1).toNat + 1) child 1 (depthSt - 1) pvtail
      (-v - 1) (-base) s
    let cv := -r.1.2
    if cv ≤ base then getMoveLoop g cfg depthSt v base pvtail rest i rv r.2
    else
      let pts := goDiv (cv - base) cfg.randomizeScale
      let i := i + pts
      let rc := randInt63n g r.2 i
      if rc.1 ≤ pts then getMoveLoop g cfg depthSt v base pvtail rest i m rc.2
      else getMoveLoop g cfg depthSt v base pvtail rest i rv rc.2

/-- GetMove (minimax.go lines 242-282): run Analyze; with no randomization
window, or on a proven win or loss, return the PV head; otherwise run the
weighted-random selection over the root children within the window.  The
returned option is none exactly when Go would panic: on the preflight size
mismatch inside Analyze, or when pv[0] is indexed on an empty PV. -/
def getMove (g : Game) (cfg : MinimaxConfig) (limited : Bool) (deadline : Int)
    (loopFuel : Nat) (p : Nat) (s : EngineState) : Option Move × EngineState :=
  match analyze g cfg limited deadline loopFuel p s with
  | AnalyzeRes.panicked s => (none, s)
  | AnalyzeRes.ok pv v st s =>
    if cfg.randomizeWindow = 0 then (pv.head?, s)
    else if winThreshold < v ∨ v < -winThreshold then (pv.head?, s)
    else
      match pv with
      | [] => (none, s)
      | rv0 :: pvtail =>
        let base := v - cfg.randomizeWindow
        let children := genChildren g 0 st.depth p none (rv0 :: pvtail)
        let r := getMoveLoop g cfg st.depth v base pvtail children 0 rv0 s
        (some r.1, r.2)

/-- Engine state carried by a main-loop outcome of zwSearch. -/
def zwLoopOutState : ZwLoopOut → EngineState
  | ZwLoopOut.canceled s => s
  | ZwLoopOut.done _ _ s => s

/-- Engine state carried by a main-loop outcome of pvSearch. -/
def pvLoopOutState : PvLoopOut → EngineState
  | PvLoopOut.canceled s => s
  | PvLoopOut.done _ _ _ s => s

/-- Engine state of zwSearch just before its null-move search: after the
node bookkeeping (Visited and Scout bumps, line 610-611), the write of the
pass into the ply move slot (line 628) and the NullSearch bump (line 631). -/
def zwNullState (s : EngineState) (ply : Nat) : EngineState :=
  { s with
    st := ({ s.st with visited := s.st.visited + 1, scout := s.st.scout + 1, nullSearch := s.st.nullSearch + 1 })
    stackM := updF s.stackM ply passMove }

/-- The history counters of t dominate those of s pointwise: the searches
only ever add nonnegative amounts to history (via recordCut), so every
search step takes a state to one related to it by HistAdds. -/
def HistAdds (s t : EngineState) : Prop :=
  ∀ k, s.history k ≤ t.history k

/-- Arguments of one Analyze invocation (context deadline and root). -/
structure AnalyzeCall where
  limited : Bool
  deadline : Int
  fuel : Nat
  p : Nat

/-- Final engine state after a sequence of Analyze invocations. -/
def runAnalyzes (g : Game) (cfg : MinimaxConfig) : List AnalyzeCall → EngineState → EngineState
  | [], s => s
  | c :: rest, s =>
    runAnalyzes g cfg rest (analyzeState (analyze g cfg c.limited c.deadline c.fuel c.p s))

/-- Concrete placement moves used by the concrete test games below. -/
def mA : Move :=
  { hash := 10, kind := MoveKind.place, x := 0, y := 0, destX := 0, destY := 0, slides := [] }

def mB : Move :=
  { hash := 11, kind := MoveKind.place, x := 0, y := 0, destX := 0, destY := 0, slides := [] }

def mAgc : Move :=
  { hash := 12, kind := MoveKind.place, x := 0, y := 0, destX := 0, destY := 0, slides := [] }

def mBgc : Move :=
  { hash := 13, kind := MoveKind.place, x := 0, y := 0, destX := 0, destY := 0, slides := [] }

/-- Concrete two-ply game: root 0 with children A = 1 (value 10 for the
root side) and B = 2 (value 7), each with a single reply (3 and 4). -/
def gT : Game := {
  size := fun _ => 5
  hash := fun p => p + 100
  over := fun _ => false
  eval := fun p => if p = 1 then -10 else if p = 2 then -7 else
    if p = 3 then 10 else if p = 4 then 7 else 0
  applyMove := fun p m =>
    if p = 0 ∧ m = mA then some 1 else if p = 0 ∧ m = mB then some 2
    else if p = 1 ∧ m = mAgc then some 3 else if p = 2 ∧ m = mBgc then some 4 else none
  whiteStones := fun _ => 10
  blackStones := fun _ => 10
  occupiedCount := fun _ => 0
  stacksLen := fun _ => 25
  height := fun _ _ => 0
  gen := fun _ply _depth p _te _pv =>
    if p = 0 then [mA, mB] else if p = 1 then [mAgc] else if p = 2 then [mBgc] else []
  cancelAt := fun _ => false
  clock := fun n => n
  randAt := fun _ _ => 0
}

/-- Configuration for the concrete games: depth 2, randomization window 5,
table and heuristic pruning disabled. -/
def cfgT : MinimaxConfig := {
  size := 5, depth := 2, seed := 1, randomizeWindow := 5, randomizeScale := 1,
  noSort := false, noTable := true, noNullMove := true, noExtendForces := false,
  noReduceSlides := true, noMultiCut := true }

/-- Variant of cfgT at depth 3 with no randomization. -/
def cfgT3 : MinimaxConfig := { cfgT with depth := 3, randomizeWindow := 0 }

/-- Variant of cfgT with the transposition table enabled. -/
def cfgTab : MinimaxConfig := { cfgT with noTable := false }

/-- Fresh engine state: empty table, zero history, empty response table,
zeroed stack slots and stats, oracle counters at zero. -/
def s0 : EngineState := {
  table := fun _ => emptyEntry, history := fun _ => 0, response := fun _ => none,
  stackM := fun _ => noMove, st := {}, engDepth := 0, polls := 0, clocks := 0, rands := 0 }

/-- State whose table holds, at the primary slot of hash 1, an exact entry
for hash 1 itself at depth 7. -/
def sW1 : EngineState :=
  { s0 with table := (updF s0.table (1 % tableSize)
      { hash := 1, depth := 7, value := 3, bound := Bound.exact, m := mA }) }

/-- State whose table holds, at the primary slot of hash 101 (the hash of
position 1 of gT), a deep entry (depth 9) for hash 101 itself. -/
def sW9 : EngineState :=
  { s0 with table := (updF s0.table (101 % tableSize)
      { hash := 101, depth := 9, value := 44, bound := Bound.lower, m := mA }) }

/-- State with a single nonzero history counter at key 0. -/
def sH : EngineState := { s0 with history := fun k => if k = 0 then 5 else 0 }

/-- gT with the cancellation flag permanently set. -/
def gT10 : Game := { gT with cancelAt := fun _ => true }

/-- Concrete one-position game for the null-move cut: the pass applies at
the root node 0 and leads to node 1 of evaluation -100; both reserves hold
exactly 3 stones and the board is empty. -/
def gW4 : Game := { gT with
  eval := fun p => if p = 1 then -100 else 0
  applyMove := fun p m => if p = 0 ∧ m = passMove then some 1 else none
  whiteStones := fun _ => 3
  blackStones := fun _ => 3
  gen := fun _ _ _ _ _ => [] }

/-- Configuration with null-move pruning enabled (table still disabled). -/
def cfgW4 : MinimaxConfig := { cfgT with noNullMove := false }

/-- Configuration with multi-cut enabled. -/
def cfgMC : MinimaxConfig := { cfgT with noMultiCut := false }

/-- A constant search oracle whose every answer fails high against α = 0
(value -100, so the negated value is 100). -/
def recFH : SearchFn := fun _ _ _ _ _ _ s => ((none, -100), s)

theorem updF_same {α : Type} (f : Nat → α) (i : Nat) (v : α) : updF f i v i = v := by
  simp [updF]

theorem ttPut_eq (g : Game) (cfg : MinimaxConfig) (s : EngineState) (h : Nat)
    (hnt : cfg.noTable = false) (hc : g.cancelAt s.polls = false) :
    ttPut g cfg s h = (some (h % tableSize),
      { s with
        polls := s.polls + 1
        table := (if (s.table (h % tableSize)).hash ≠ 0
          then updF s.table (h * hashMul % 2 ^ 64 % tableSize) (s.table (h % tableSize))
          else s.table) }) := by
  unfold ttPut pollCancel
  simp only [hnt, hc, Bool.false_eq_true, if_false]
  split <;> simp_all

theorem updF_self_source {α : Type} (f : Nat → α) (i j : Nat) : updF f j (f i) i = f i := by
  unfold updF
  split <;> simp_all

/-- C5: the sufficiency predicate holds iff either the entry is at least as
deep as the request and its bound is EXACT, or UPPER with value below α, or
LOWER with value above β; or the bound is EXACT with a proven-win magnitude
regardless of the stored depth. -/
theorem c5_teSuffices_characterization (te : TableEntry) (d α β : Int) :
    teSuffices te d α β = true ↔
      ((d ≤ te.depth ∧
        (te.bound = Bound.exact ∨ (te.bound = Bound.upper ∧ te.value < α) ∨
          (te.bound = Bound.lower ∧ β < te.value))) ∨
       (te.bound = Bound.exact ∧ (winThreshold < te.value ∨ te.value < -winThreshold))) := by
  unfold teSuffices
  simp only [Bool.or_eq_true, Bool.and_eq_true, decide_eq_true_eq]
  tauto

/-- C8: Analyze requires the root position size to match the configured
size; on a mismatch it fails at once (Go panics) and the engine state it
carries is the untouched input state: nothing was mutated before the
check. -/
theorem c8_analyze_size_check (g : Game) (cfg : MinimaxConfig) (limited : Bool)
    (deadline : Int) (fuel : Nat) (p : Nat) (s : EngineState)
    (h : cfg.size ≠ g.size p) :
    analyze g cfg limited deadline fuel p s = AnalyzeRes.panicked s := by
  unfold analyze
  simp [h]

theorem c8_analyze_size_check_witness :
    ({ cfgT with size := 4 }.size ≠ gT.size 0) ∧
      analyze gT { cfgT with size := 4 } false 0 5 0 s0 = AnalyzeRes.panicked s0 :=
  ⟨by decide, c8_analyze_size_check gT { cfgT with size := 4 } false 0 5 0 s0 (by decide)⟩

/-- C1 (amended): on a ttPut write with the table enabled and cancellation
not set, the primary slot entry is copied to the secondary slot whenever
the primary slot is occupied (nonzero hash), whether or not its key equals
the written hash h; only an empty primary slot skips the copy.  Either way
the primary slot index is handed back for overwriting. -/
theorem c1_ttPut_displacement (g : Game) (cfg : MinimaxConfig) (s : EngineState) (h : Nat)
    (hnt : cfg.noTable = false) (hc : g.cancelAt s.polls = false) :
    ((s.table (h % tableSize)).hash ≠ 0 →
      (ttPut g cfg s h).1 = some (h % tableSize) ∧
        (ttPut g cfg s h).2.table (h * hashMul % 2 ^ 64 % tableSize) =
          s.table (h % tableSize)) ∧
    ((s.table (h % tableSize)).hash = 0 →
      (ttPut g cfg s h).1 = some (h % tableSize) ∧
        (ttPut g cfg s h).2.table = s.table) := by
  unfold ttPut pollCancel
  simp only [hnt, hc, Bool.false_eq_true, if_false, ite_not]
  constructor
  · intro hocc
    simp [hocc, updF_same]
  · intro hemp
    simp [hemp]

theorem c1_ttPut_displacement_witness :
    (cfgTab.noTable = false ∧ gT.cancelAt sW1.polls = false ∧
      (sW1.table (1 % tableSize)).hash ≠ 0) ∧
      ((ttPut gT cfgTab sW1 1).1 = some (1 % tableSize) ∧
        (ttPut gT cfgTab sW1 1).2.table (1 * hashMul % 2 ^ 64 % tableSize) =
          sW1.table (1 % tableSize)) :=
  ⟨by decide, (c1_ttPut_displacement gT cfgTab sW1 1 (by decide) (by decide)).1 (by decide)⟩

/-- C1 counterexample: the claim says the copy to the secondary slot
happens only when the primary slot holds a different key.  Here the
primary slot of hash 1 holds an entry for key 1 itself, yet ttPut still
copies it to the secondary slot, which the claim says must stay
untouched. -/
theorem c1_ttPut_counterexample :
    (sW1.table (1 % tableSize)).hash = 1 ∧
      (ttPut gT cfgTab sW1 1).2.table (1 * hashMul % 2 ^ 64 % tableSize) ≠
        sW1.table (1 * hashMul % 2 ^ 64 % tableSize) := by
  decide

/-- C9: the zwSearch table store writes its entry unconditionally once
ttPut yields the slot (table on, not cancelled): the primary slot receives
the current hash, the possibly slide-reduced depth, the value and a LOWER
or UPPER bound, with no look at the previous same-hash depth, so a deeper
same-hash entry is replaced (first conjunct, with no constraint on the
stored entry).  The pvSearch store, by contrast, leaves a same-hash entry
of strictly greater depth untouched (second conjunct) and overwrites a
same-hash entry exactly when the new depth is at least the stored depth
(third conjunct). -/
theorem c9_tt_store_policies :
    (∀ (g : Game) (cfg : MinimaxConfig) (p : Nat) (depth α : Int) (best : List Move)
        (didCut : Bool) (s : EngineState),
      cfg.noTable = false → g.cancelAt s.polls = false →
      (zwTTStore g cfg p depth α best didCut s).table (g.hash p % tableSize) =
        { hash := g.hash p, depth := depth, value := α, m := best.headD noMove,
          bound := if didCut then Bound.lower else Bound.upper }) ∧
    (∀ (g : Game) (cfg : MinimaxConfig) (p : Nat) (depth α β : Int) (best : List Move)
        (improved : Bool) (s : EngineState),
      cfg.noTable = false → g.cancelAt s.polls = false →
      (s.table (g.hash p % tableSize)).hash = g.hash p →
      depth < (s.table (g.hash p % tableSize)).depth →
      (pvTTStore g cfg p depth α β best improved s).table (g.hash p % tableSize) =
        s.table (g.hash p % tableSize)) ∧
    (∀ (g : Game) (cfg : MinimaxConfig) (p : Nat) (depth α β : Int) (best : List Move)
        (improved : Bool) (s : EngineState),
      cfg.noTable = false → g.cancelAt s.polls = false →
      (s.table (g.hash p % tableSize)).hash = g.hash p →
      (s.table (g.hash p % tableSize)).depth ≤ depth →
      (pvTTStore g cfg p depth α β best improved s).table (g.hash p % tableSize) =
        { hash := g.hash p, depth := depth, value := α, m := best.headD noMove,
          bound := if improved = false then Bound.upper
            else if β ≤ α then Bound.lower else Bound.exact }) := by
  refine ⟨?_, ?_, ?_⟩
  · intro g cfg p depth α best didCut s hnt hc
    unfold zwTTStore
    rw [ttPut_eq g cfg s (g.hash p) hnt hc]
    split
    · rename_i heq
      simp at heq
    · rename_i i1 s2 heq
      injection heq with ha hb
      injection ha with ha
      subst ha
      subst hb
      split <;> simp [updF_same]
  · intro g cfg p depth α β best improved s hnt hc hh hd
    have hle : ¬ (s.table (g.hash p % tableSize)).depth ≤ depth := not_le.mpr hd
    unfold pvTTStore
    rw [ttPut_eq g cfg s (g.hash p) hnt hc]
    generalize hT : (if (s.table (g.hash p % tableSize)).hash ≠ 0
      then updF s.table (g.hash p * hashMul % 2 ^ 64 % tableSize)
        (s.table (g.hash p % tableSize))
      else s.table) = T
    have hT1 : T (g.hash p % tableSize) = s.table (g.hash p % tableSize) := by
      rw [← hT]
      split <;> simp [updF_self_source]
    simp [hT1, hh, hle]
  · intro g cfg p depth α β best improved s hnt hc hh hd
    unfold pvTTStore
    rw [ttPut_eq g cfg s (g.hash p) hnt hc]
    generalize hT : (if (s.table (g.hash p % tableSize)).hash ≠ 0
      then updF s.table (g.hash p * hashMul % 2 ^ 64 % tableSize)
        (s.table (g.hash p % tableSize))
      else s.table) = T
    have hT1 : T (g.hash p % tableSize) = s.table (g.hash p % tableSize) := by
      rw [← hT]
      split <;> simp [updF_self_source]
    simp only [hT1, hh, hd]
    by_cases himp : improved = false <;> simp [himp, updF_same]

theorem c9_tt_store_policies_witness :
    (cfgTab.noTable = false ∧ gT.cancelAt sW9.polls = false ∧
      (sW9.table (gT.hash 1 % tableSize)).hash = gT.hash 1 ∧
      (2 : Int) < (sW9.table (gT.hash 1 % tableSize)).depth ∧
      (sW9.table (gT.hash 1 % tableSize)).depth ≤ 20) ∧
    ((zwTTStore gT cfgTab 1 2 5 [mA] true sW9).table (gT.hash 1 % tableSize) =
        { hash := gT.hash 1, depth := 2, value := 5, m := [mA].headD noMove,
          bound := if true then Bound.lower else Bound.upper } ∧
      (pvTTStore gT cfgTab 1 2 5 6 [mA] true sW9).table (gT.hash 1 % tableSize) =
        sW9.table (gT.hash 1 % tableSize) ∧
      (pvTTStore gT cfgTab 1 20 5 6 [mA] false sW9).table (gT.hash 1 % tableSize) =
        { hash := gT.hash 1, depth := 20, value := 5, m := [mA].headD noMove,
          bound := if false = false then Bound.upper
            else if (6 : Int) ≤ 5 then Bound.lower else Bound.exact }) :=
  ⟨by decide,
    c9_tt_store_policies.1 gT cfgTab 1 2 5 [mA] true sW9 (by decide) (by decide),
    c9_tt_store_policies.2.1 gT cfgTab 1 2 5 6 [mA] true sW9 (by decide) (by decide)
      (by decide) (by decide),
    c9_tt_store_policies.2.2 gT cfgTab 1 20 5 6 [mA] false sW9 (by decide) (by decide)
      (by decide) (by decide)⟩

theorem zwStep_to_null (g : Game) (cfg : MinimaxConfig) (rec : SearchFn) (p : Nat)
    (ply : Nat) (depth : Int) (pv : List Move) (α : Int) (cut : Bool) (s : EngineState)
    (hover : g.over p = false) (hd : ¬ depth ≤ 0)
    (htt : ttGet cfg s (g.hash p) = none) :
    zwStep g cfg rec p ply depth pv α cut s =
      zwNull g cfg rec p ply depth pv α cut none
        ({ s with st := { s.st with visited := s.st.visited + 1, scout := s.st.scout + 1 } }) := by
  unfold zwStep
  have hcond : ¬ (depth ≤ 0 ∨ g.over p = true) := by simp [hover, hd]
  rw [if_neg hcond]
  have htt2 : ttGet cfg
      ({ s with st := { s.st with visited := s.st.visited + 1, scout := s.st.scout + 1 } })
      (g.hash p) = none := htt
  simp only [htt2]

/-- C4: null-move admissibility is exactly the conjunction of the spec's
six conditions (first conjunct), and at a non-terminal node with no table
hit where the null move is admissible and the pass applies legally, a
null search at depth-3 whose negated value reaches α+1 makes zwSearch
return (nil, that negated value) immediately, for every move-generator
oracle and fuel, so no real child is examined (second conjunct). -/
theorem c4_null_move_pruning :
    (∀ (g : Game) (cfg : MinimaxConfig) (s : EngineState) (ply : Nat) (depth : Int) (p : Nat),
      nullMoveOK g cfg s ply depth p = true ↔
        (cfg.noNullMove = false ∧ 0 < ply ∧ 3 ≤ depth ∧
          (s.stackM (ply - 1)).kind ≠ MoveKind.pass ∧
          3 ≤ g.whiteStones p ∧ 3 ≤ g.blackStones p ∧
          g.occupiedCount p + 3 < g.stacksLen p)) ∧
    (∀ (g : Game) (cfg : MinimaxConfig) (fuel : Nat) (p : Nat) (ply : Nat) (depth : Int)
        (pv : List Move) (α : Int) (cut : Bool) (s : EngineState) (child : Nat),
      g.over p = false → ¬ depth ≤ 0 →
      ttGet cfg s (g.hash p) = none →
      nullMoveOK g cfg s ply depth p = true →
      g.applyMove p passMove = some child →
      (let r := zwSearch g cfg fuel child (ply + 1) (depth - 3) [] (-α - 1) true
        (zwNullState s ply);
       α + 1 ≤ -r.1.2 →
       zwSearch g cfg (fuel + 1) p ply depth pv α cut s =
         ((none, -r.1.2), { r.2 with st.nullCut := r.2.st.nullCut + 1 }))) := by
  constructor
  · intro g cfg s ply depth p
    unfold nullMoveOK
    split_ifs with h1 h2 h3 h4 h5
    · simp [h1]
    · simp only [Bool.or_eq_true, decide_eq_true_eq] at h2
      simp only [false_iff]
      intro h
      rcases h2 with h2 | h2
      · omega
      · omega
    · simp [h3]
    · simp only [Bool.or_eq_true, decide_eq_true_eq] at h4
      simp only [false_iff]
      intro h
      rcases h4 with h4 | h4
      · omega
      · omega
    · simp only [false_iff]
      intro h
      omega
    · simp only [Bool.or_eq_true, decide_eq_true_eq] at h2 h4
      push_neg at h2 h4
      simp only [true_iff]
      refine ⟨by simpa using h1, by omega, by omega, h3, by omega, by omega, by omega⟩
  · intro g cfg fuel p ply depth pv α cut s child hover hd htt hnm happ
    intro r hcut
    have hzw : zwSearch g cfg (fuel + 1) p ply depth pv α cut s =
        zwStep g cfg (zwSearch g cfg fuel) p ply depth pv α cut s := rfl
    rw [hzw, zwStep_to_null g cfg (zwSearch g cfg fuel) p ply depth pv α cut s hover hd htt]
    unfold zwNull
    have hnm2 : nullMoveOK g cfg
        ({ s with st := { s.st with visited := s.st.visited + 1, scout := s.st.scout + 1 } })
        ply depth p = true := hnm
    simp only [hnm2, eq_self_iff_true, if_true, happ]
    split
    · rfl
    · rename_i hneg
      exact absurd hcut hneg

theorem c4_null_move_pruning_witness :
    (gW4.over 0 = false ∧ ¬ (3 : Int) ≤ 0 ∧ ttGet cfgW4 s0 (gW4.hash 0) = none ∧
      nullMoveOK gW4 cfgW4 s0 1 3 0 = true ∧ gW4.applyMove 0 passMove = some 1 ∧
      (0 : Int) + 1 ≤
        -(zwSearch gW4 cfgW4 1 1 2 (3 - 3) [] (-0 - 1) true (zwNullState s0 1)).1.2) ∧
    zwSearch gW4 cfgW4 2 0 1 3 [] 0 true s0 =
      ((none, -(zwSearch gW4 cfgW4 1 1 2 (3 - 3) [] (-0 - 1) true (zwNullState s0 1)).1.2),
        { (zwSearch gW4 cfgW4 1 1 2 (3 - 3) [] (-0 - 1) true (zwNullState s0 1)).2 with
          st.nullCut :=
            (zwSearch gW4 cfgW4 1 1 2 (3 - 3) [] (-0 - 1) true (zwNullState s0 1)).2.st.nullCut
              + 1 }) :=
  ⟨⟨by decide, by decide, by decide, by decide, by decide, by decide⟩,
    c4_null_move_pruning.2 gW4 cfgW4 1 0 1 3 [] 0 true s0 1 (by decide) (by decide)
      (by decide) (by decide) (by decide) (by decide)⟩

/-- C6: with cut set, depth above 3 and multi-cut enabled, zwSearch
pre-scans at most multiCutSearch = 6 children (the take in the first
conjunct, whose length the third conjunct bounds); when the pre-scan
reports a cut the node returns (nil, α+1) immediately, and otherwise the
main loop runs over the full child list again from the first move (the
generator reset; first conjunct); the pre-scan reports its cut as soon as
its running count of fail-high children (negated value above α) reaches
multiCutThreshold = 3 (second conjunct). -/
theorem c6_multi_cut :
    (∀ (g : Game) (cfg : MinimaxConfig) (rec : SearchFn) (p : Nat) (ply : Nat) (depth : Int)
        (pv : List Move) (α : Int) (te : Option TableEntry) (s : EngineState),
      3 < depth → cfg.noMultiCut = false →
      (((zwMultiCut rec ply depth α true
            ((genChildren g ply depth p te pv).take multiCutSearch) 0
            ({ s with st.mcSearch := s.st.mcSearch + 1 })).1 = true →
        zwGen g cfg rec p ply depth pv α true te s =
          ((none, α + 1),
            (zwMultiCut rec ply depth α true
              ((genChildren g ply depth p te pv).take multiCutSearch) 0
              ({ s with st.mcSearch := s.st.mcSearch + 1 })).2)) ∧
       ((zwMultiCut rec ply depth α true
            ((genChildren g ply depth p te pv).take multiCutSearch) 0
            ({ s with st.mcSearch := s.st.mcSearch + 1 })).1 = false →
        zwGen g cfg rec p ply depth pv α true te s =
          zwMain g cfg rec p ply depth pv α true (genChildren g ply depth p te pv)
            (zwMultiCut rec ply depth α true
              ((genChildren g ply depth p te pv).take multiCutSearch) 0
              ({ s with st.mcSearch := s.st.mcSearch + 1 })).2))) ∧
    (∀ (rec : SearchFn) (ply : Nat) (depth α : Int) (cut : Bool) (m : Move) (child : Nat)
        (rest : List (Move × Nat)) (cuts : Nat) (s : EngineState),
      multiCutThreshold ≤ cuts + 1 →
      (let r := rec child (ply + 1) (depth - 1 - 2) [] (-α - 1) (!cut) s;
       α < -r.1.2 →
       zwMultiCut rec ply depth α cut ((m, child) :: rest) cuts s =
         (true, { r.2 with st.mcCut := r.2.st.mcCut + 1 }))) ∧
    (∀ (g : Game) (ply : Nat) (depth : Int) (p : Nat) (te : Option TableEntry) (pv : List Move),
      ((genChildren g ply depth p te pv).take multiCutSearch).length ≤ multiCutSearch) := by
  refine ⟨?_, ?_, ?_⟩
  · intro g cfg rec p ply depth pv α te s hdep hmc
    have hguard : (true = true ∧ 3 < depth ∧ cfg.noMultiCut = false) := ⟨rfl, hdep, hmc⟩
    rcases hq : zwMultiCut rec ply depth α true
        ((genChildren g ply depth p te pv).take multiCutSearch) 0
        ({ s with st.mcSearch := s.st.mcSearch + 1 }) with ⟨b, s2⟩
    constructor
    · intro hp
      change b = true at hp
      subst hp
      unfold zwGen
      rw [if_pos hguard, hq]
    · intro hp
      change b = false at hp
      subst hp
      unfold zwGen
      rw [if_pos hguard, hq]
  · intro rec ply depth α cut m child rest cuts s hthr
    intro r hfail
    unfold zwMultiCut
    rw [if_pos hfail, if_pos hthr]
  · intro g ply depth p te pv
    rw [List.length_take]
    exact min_le_left _ _

theorem c6_multi_cut_witness :
    ((3 : Int) < 4 ∧ cfgMC.noMultiCut = false ∧ multiCutThreshold ≤ 2 + 1 ∧
      (0 : Int) < -(recFH 1 1 (4 - 1 - 2) [] (-0 - 1) (!true) s0).1.2) ∧
    ((((zwMultiCut recFH 0 4 0 true ((genChildren gT 0 4 0 none []).take multiCutSearch) 0
          ({ s0 with st.mcSearch := s0.st.mcSearch + 1 })).1 = true →
        zwGen gT cfgMC recFH 0 0 4 [] 0 true none s0 =
          ((none, 0 + 1),
            (zwMultiCut recFH 0 4 0 true ((genChildren gT 0 4 0 none []).take multiCutSearch) 0
              ({ s0 with st.mcSearch := s0.st.mcSearch + 1 })).2)) ∧
      ((zwMultiCut recFH 0 4 0 true ((genChildren gT 0 4 0 none []).take multiCutSearch) 0
          ({ s0 with st.mcSearch := s0.st.mcSearch + 1 })).1 = false →
        zwGen gT cfgMC recFH 0 0 4 [] 0 true none s0 =
          zwMain gT cfgMC recFH 0 0 4 [] 0 true (genChildren gT 0 4 0 none [])
            (zwMultiCut recFH 0 4 0 true ((genChildren gT 0 4 0 none []).take multiCutSearch) 0
              ({ s0 with st.mcSearch := s0.st.mcSearch + 1 })).2)) ∧
     zwMultiCut recFH 0 4 0 true ((mA, 1) :: []) 2 s0 =
       (true, { (recFH 1 1 (4 - 1 - 2) [] (-0 - 1) (!true) s0).2 with
         st.mcCut := (recFH 1 1 (4 - 1 - 2) [] (-0 - 1) (!true) s0).2.st.mcCut + 1 })) :=
  ⟨⟨by decide, by decide, by decide, by decide⟩,
    c6_multi_cut.1 gT cfgMC recFH 0 0 4 [] 0 none s0 (by decide) (by decide),
    c6_multi_cut.2.1 recFH 0 4 0 true mA 1 [] 2 s0 (by decide) (by decide)⟩

/-- C2 (amended): in the GetMove randomization loop each root child is
scored by a full-window pvSearch over (-v-1, -base), which is
getMoveChildScore (first conjunct); a child scoring at most base is
skipped, the loop continuing on the remaining children with the weight
total i and the selected move unchanged, so such a child contributes no
weight and is never selected (second conjunct); a child scoring above base
adds (cv-base)/scale weight and is selected exactly when the reservoir
draw is at most that weight (third conjunct). -/
theorem getMoveLoop_cons (g : Game) (cfg : MinimaxConfig) (depthSt v base : Int)
    (pvtail : List Move) (m : Move) (child : Nat) (rest : List (Move × Nat)) (i : Int)
    (rv : Move) (s : EngineState) :
    getMoveLoop g cfg depthSt v base pvtail ((m, child) :: rest) i rv s =
      (if -(pvSearch g cfg ((depthSt - 1).toNat + 1) child 1 (depthSt - 1) pvtail
            (-v - 1) (-base) ({ s with stackM := updF s.stackM 0 m })).1.2 ≤ base then
        getMoveLoop g cfg depthSt v base pvtail rest i rv
          (pvSearch g cfg ((depthSt - 1).toNat + 1) child 1 (depthSt - 1) pvtail
            (-v - 1) (-base) ({ s with stackM := updF s.stackM 0 m })).2
      else
        if (randInt63n g
            (pvSearch g cfg ((depthSt - 1).toNat + 1) child 1 (depthSt - 1) pvtail
              (-v - 1) (-base) ({ s with stackM := updF s.stackM 0 m })).2
            (i + goDiv
              (-(pvSearch g cfg ((depthSt - 1).toNat + 1) child 1 (depthSt - 1) pvtail
                  (-v - 1) (-base) ({ s with stackM := updF s.stackM 0 m })).1.2 - base)
              cfg.randomizeScale)).1 ≤
            goDiv
              (-(pvSearch g cfg ((depthSt - 1).toNat + 1) child 1 (depthSt - 1) pvtail
                  (-v - 1) (-base) ({ s with stackM := updF s.stackM 0 m })).1.2 - base)
              cfg.randomizeScale then
          getMoveLoop g cfg depthSt v base pvtail rest
            (i + goDiv
              (-(pvSearch g cfg ((depthSt - 1).toNat + 1) child 1 (depthSt - 1) pvtail
                  (-v - 1) (-base) ({ s with stackM := updF s.stackM 0 m })).1.2 - base)
              cfg.randomizeScale)
            m
            (randInt63n g
              (pvSearch g cfg ((depthSt - 1).toNat + 1) child 1 (depthSt - 1) pvtail
                (-v - 1) (-base) ({ s with stackM := updF s.stackM 0 m })).2
              (i + goDiv
                (-(pvSearch g cfg ((depthSt - 1).toNat + 1) child 1 (depthSt - 1) pvtail
                    (-v - 1) (-base) ({ s with stackM := updF s.stackM 0 m })).1.2 - base)
                cfg.randomizeScale)).2
        else
          getMoveLoop g cfg depthSt v base pvtail rest
            (i + goDiv
              (-(pvSearch g cfg ((depthSt - 1).toNat + 1) child 1 (depthSt - 1) pvtail
                  (-v - 1) (-base) ({ s with stackM := updF s.stackM 0 m })).1.2 - base)
              cfg.randomizeScale)
            rv
            (randInt63n g
              (pvSearch g cfg ((depthSt - 1).toNat + 1) child 1 (depthSt - 1) pvtail
                (-v - 1) (-base) ({ s with stackM := updF s.stackM 0 m })).2
              (i + goDiv
                (-(pvSearch g cfg ((depthSt - 1).toNat + 1) child 1 (depthSt - 1) pvtail
                    (-v - 1) (-base) ({ s with stackM := updF s.stackM 0 m })).1.2 - base)
                cfg.randomizeScale)).2) := rfl

theorem c2_getmove_randomization (g : Game) (cfg : MinimaxConfig) (depthSt v base : Int)
    (pvtail : List Move) (m : Move) (child : Nat) (rest : List (Move × Nat)) (i : Int)
    (rv : Move) (s : EngineState) :
    (-(pvSearch g cfg ((depthSt - 1).toNat + 1) child 1 (depthSt - 1) pvtail
        (-v - 1) (-base) ({ s with stackM := updF s.stackM 0 m })).1.2 =
      getMoveChildScore g cfg depthSt v base pvtail child
        ({ s with stackM := updF s.stackM 0 m })) ∧
    (-(pvSearch g cfg ((depthSt - 1).toNat + 1) child 1 (depthSt - 1) pvtail
        (-v - 1) (-base) ({ s with stackM := updF s.stackM 0 m })).1.2 ≤ base →
      getMoveLoop g cfg depthSt v base pvtail ((m, child) :: rest) i rv s =
        getMoveLoop g cfg depthSt v base pvtail rest i rv
          (pvSearch g cfg ((depthSt - 1).toNat + 1) child 1 (depthSt - 1) pvtail
            (-v - 1) (-base) ({ s with stackM := updF s.stackM 0 m })).2) ∧
    (base < -(pvSearch g cfg ((depthSt - 1).toNat + 1) child 1 (depthSt - 1) pvtail
        (-v - 1) (-base) ({ s with stackM := updF s.stackM 0 m })).1.2 →
      getMoveLoop g cfg depthSt v base pvtail ((m, child) :: rest) i rv s =
        getMoveLoop g cfg depthSt v base pvtail rest
          (i + goDiv
            (-(pvSearch g cfg ((depthSt - 1).toNat + 1) child 1 (depthSt - 1) pvtail
                (-v - 1) (-base) ({ s with stackM := updF s.stackM 0 m })).1.2 - base)
            cfg.randomizeScale)
          (if (randInt63n g
              (pvSearch g cfg ((depthSt - 1).toNat + 1) child 1 (depthSt - 1) pvtail
                (-v - 1) (-base) ({ s with stackM := updF s.stackM 0 m })).2
              (i + goDiv
                (-(pvSearch g cfg ((depthSt - 1).toNat + 1) child 1 (depthSt - 1) pvtail
                    (-v - 1) (-base) ({ s with stackM := updF s.stackM 0 m })).1.2 - base)
                cfg.randomizeScale)).1 ≤
              goDiv
                (-(pvSearch g cfg ((depthSt - 1).toNat + 1) child 1 (depthSt - 1) pvtail
                    (-v - 1) (-base) ({ s with stackM := updF s.stackM 0 m })).1.2 - base)
                cfg.randomizeScale
            then m else rv)
          (randInt63n g
            (pvSearch g cfg ((depthSt - 1).toNat + 1) child 1 (depthSt - 1) pvtail
              (-v - 1) (-base) ({ s with stackM := updF s.stackM 0 m })).2
            (i + goDiv
              (-(pvSearch g cfg ((depthSt - 1).toNat + 1) child 1 (depthSt - 1) pvtail
                  (-v - 1) (-base) ({ s with stackM := updF s.stackM 0 m })).1.2 - base)
              cfg.randomizeScale)).2) := by
  refine ⟨rfl, ?_, ?_⟩
  · intro hskip
    rw [getMoveLoop_cons, if_pos hskip]
  · intro hpass
    rw [getMoveLoop_cons, if_neg (not_le.mpr hpass)]
    split
    · rfl
    · rfl

theorem c2_getmove_randomization_witness :
    (-(pvSearch gT cfgT ((2 - 1 : Int).toNat + 1) 2 1 (2 - 1) [mAgc] (-10 - 1) (-20)
        ({ s0 with stackM := updF s0.stackM 0 mB })).1.2 ≤ 20) ∧
    getMoveLoop gT cfgT 2 10 20 [mAgc] ((mB, 2) :: []) 0 mA s0 =
      getMoveLoop gT cfgT 2 10 20 [mAgc] [] 0 mA
        (pvSearch gT cfgT ((2 - 1 : Int).toNat + 1) 2 1 (2 - 1) [mAgc] (-10 - 1) (-20)
          ({ s0 with stackM := updF s0.stackM 0 mB })).2 :=
  ⟨by decide, (c2_getmove_randomization gT cfgT 2 10 20 [mAgc] mB 2 [] 0 mA s0).2.1 (by decide)⟩

/-- C2 counterexample: on the concrete game gT (root value v = 10 with
PV [mA, mAgc] at depth 2, as the analysis of gT yields), with window 5
(base 5), the GetMove randomization loop scores root child B = 2 as 7,
the child's exact value, through its pvSearch over the window (-11, -5),
while the spec's zero-window formula -zwSearch(child, ..., -v-1, ...)
gives 10 for either cut flag (the zero-window search can only fail low or
high, returning -11 or -10): the claim that cv is computed by a zero-window
scout
search is false on this call, and the selection weight (cv - base)/scale
differs (2 against 5). -/
theorem c2_getmove_counterexample :
    getMoveChildScore gT cfgT 2 10 5 [mAgc] 2 s0 = 7 ∧
    specZWChildScore gT cfgT 2 10 [mAgc] 2 true s0 = 10 ∧
    specZWChildScore gT cfgT 2 10 [mAgc] 2 false s0 = 10 ∧
    getMoveChildScore gT cfgT 2 10 5 [mAgc] 2 s0 ≠
      specZWChildScore gT cfgT 2 10 [mAgc] 2 true s0 ∧
    cfgT.randomizeWindow = 5 := by
  decide

/-- C3 (amended): the deadline-based stop of the deepening loop is
evaluated whenever a deadline is set and the just-finished iteration i is
not the final configured depth — for every i, including i = 1 and i = 2;
the branching estimate is 2 * branchSum / (i - 1) when i exceeds 2 and the
conservative constant 20 otherwise, and the loop stops exactly when the
current time plus the elapsed iteration time scaled by that estimate lies
beyond the deadline (first conjunct).  When the guard holds the check
consumes its two clock readings (second conjunct); with no deadline set,
or at the final configured depth, no deadline stop occurs and no clock is
read (third conjunct). -/
theorem c3_deadline_check_amended :
    (∀ (g : Game) (cfg : MinimaxConfig) (limited : Bool) (deadline base : Int) (i : Nat)
        (branchSum : Nat) (start : Int) (s : EngineState),
      (analyzeDeadlineCheck g cfg limited deadline base i branchSum start s).1 = true ↔
        (limited = true ∧ (i : Int) + base ≠ cfg.depth ∧
          deadline < g.clock s.clocks +
            (g.clock (s.clocks + 1) - start) *
              (((if 2 < i then 2 * branchSum / (i - 1) else 20) : Nat) : Int))) ∧
    (∀ (g : Game) (cfg : MinimaxConfig) (limited : Bool) (deadline base : Int) (i : Nat)
        (branchSum : Nat) (start : Int) (s : EngineState),
      (limited = true ∧ (i : Int) + base ≠ cfg.depth) →
      (analyzeDeadlineCheck g cfg limited deadline base i branchSum start s).2 =
        { s with clocks := s.clocks + 1 + 1 }) ∧
    (∀ (g : Game) (cfg : MinimaxConfig) (limited : Bool) (deadline base : Int) (i : Nat)
        (branchSum : Nat) (start : Int) (s : EngineState),
      ¬(limited = true ∧ (i : Int) + base ≠ cfg.depth) →
      analyzeDeadlineCheck g cfg limited deadline base i branchSum start s = (false, s)) := by
  refine ⟨?_, ?_, ?_⟩
  · intro g cfg limited deadline base i branchSum start s
    unfold analyzeDeadlineCheck readClock
    split
    · rename_i hguard
      simp only [decide_eq_true_eq]
      constructor
      · intro h
        exact ⟨hguard.1, hguard.2, h⟩
      · intro h
        exact h.2.2
    · rename_i hguard
      simp only [Bool.false_eq_true, false_iff]
      intro h
      exact hguard ⟨h.1, h.2.1⟩
  · intro g cfg limited deadline base i branchSum start s hguard
    unfold analyzeDeadlineCheck readClock
    rw [if_pos hguard]
  · intro g cfg limited deadline base i branchSum start s hguard
    unfold analyzeDeadlineCheck readClock
    rw [if_neg hguard]

theorem c3_deadline_check_amended_witness :
    ((true = true ∧ (1 : Int) + 0 ≠ cfgT3.depth) ∧
      ¬(false = true ∧ (1 : Int) + 0 ≠ cfgT3.depth)) ∧
    ((analyzeDeadlineCheck gT cfgT3 true 50 0 1 0 0 s0).2 =
        { s0 with clocks := s0.clocks + 1 + 1 } ∧
      analyzeDeadlineCheck gT cfgT3 false 50 0 1 0 0 s0 = (false, s0)) :=
  ⟨⟨⟨rfl, by decide⟩, by decide⟩,
    c3_deadline_check_amended.2.1 gT cfgT3 true 50 0 1 0 0 s0 ⟨rfl, by decide⟩,
    c3_deadline_check_amended.2.2 gT cfgT3 false 50 0 1 0 0 s0 (by decide)⟩

/-- C3 counterexample: the claim says that for iterations i = 1 and i = 2
no deadline-based stop occurs.  On the concrete game gT with configured
depth 3, a deadline of 50 and the identity clock, Analyze returns after
the very first iteration (final stats depth 1), although the iteration was
not cancelled, its value 10 is no proven win, and the depth cap 3 was not
reached — those being the only other ways the deepening loop stops, the
run stopped on the deadline estimate at i = 1 (with the fallback branching
factor 20: the estimate 4 + (5 - 1) * 20 = 84 exceeds the deadline 50). -/
theorem c3_deadline_counterexample :
    cfgT3.depth = 3 ∧
    analyzeValue (analyze gT cfgT3 true 50 5 0 s0) = 10 ∧
    ¬(winThreshold < analyzeValue (analyze gT cfgT3 true 50 5 0 s0) ∨
      analyzeValue (analyze gT cfgT3 true 50 5 0 s0) < -winThreshold) ∧
    (analyzeStats (analyze gT cfgT3 true 50 5 0 s0)).canceled = false ∧
    (analyzeStats (analyze gT cfgT3 true 50 5 0 s0)).depth = 1 := by
  decide

theorem analyzePrelude_pv (g : Game) (cfg : MinimaxConfig) (p : Nat) (s : EngineState) :
    (analyzePrelude g cfg p s).2.1 =
      (match ttGet cfg s (g.hash p) with
        | some te => if te.bound = Bound.exact then [te.m] else []
        | none => []) := by
  unfold analyzePrelude
  by_cases hseed : cfg.seed = 0
  · simp only [readClock, hseed, eq_self_iff_true, if_true, ite_true]
    split
    · rename_i te heq
      rw [show ttGet cfg s (g.hash p) = some te from heq]
      by_cases hb : te.bound = Bound.exact <;> simp [hb]
    · rename_i heq
      rw [show ttGet cfg s (g.hash p) = none from heq]
  · simp only [readClock, hseed, if_false, ite_false]
    split
    · rename_i te heq
      rw [show ttGet cfg s (g.hash p) = some te from heq]
      by_cases hb : te.bound = Bound.exact <;> simp [hb]
    · rename_i heq
      rw [show ttGet cfg s (g.hash p) = none from heq]

theorem analyzeLoop_stop_none (g : Game) (cfg : MinimaxConfig) (limited : Bool)
    (deadline : Int) (p : Nat) (base : Int) (fuel i : Nat) (ms : List Move) (v : Int)
    (prevEval branchSum : Nat) (st : Stats) (s : EngineState)
    (hguard : (i : Int) + base ≤ cfg.depth)
    (hnone : (pvSearch g cfg (((i : Int) + base).toNat + 1) p 0 ((i : Int) + base) ms
        (minEval - 1) (maxEval + 1)
        ({ (readClock g ({ s with st := { depth := (i : Int) + base } })).2 with
          engDepth := (i : Int) + base })).1.1 = none) :
    analyzeLoop g cfg limited deadline p base (fuel + 1) i ms v prevEval branchSum st s =
      ((ms, v, { st with canceled := true }),
        (pvSearch g cfg (((i : Int) + base).toNat + 1) p 0 ((i : Int) + base) ms
          (minEval - 1) (maxEval + 1)
          ({ (readClock g ({ s with st := { depth := (i : Int) + base } })).2 with
            engDepth := (i : Int) + base })).2) := by
  unfold analyzeLoop
  rw [if_pos hguard]
  simp only [hnone]

theorem analyzeLoop_stop_cancel (g : Game) (cfg : MinimaxConfig) (limited : Bool)
    (deadline : Int) (p : Nat) (base : Int) (fuel i : Nat) (ms : List Move) (v : Int)
    (prevEval branchSum : Nat) (st : Stats) (s : EngineState) (next : List Move)
    (hguard : (i : Int) + base ≤ cfg.depth)
    (hsome : (pvSearch g cfg (((i : Int) + base).toNat + 1) p 0 ((i : Int) + base) ms
        (minEval - 1) (maxEval + 1)
        ({ (readClock g ({ s with st := { depth := (i : Int) + base } })).2 with
          engDepth := (i : Int) + base })).1.1 = some next)
    (hpoll : g.cancelAt
        (pvSearch g cfg (((i : Int) + base).toNat + 1) p 0 ((i : Int) + base) ms
          (minEval - 1) (maxEval + 1)
          ({ (readClock g ({ s with st := { depth := (i : Int) + base } })).2 with
            engDepth := (i : Int) + base })).2.polls = true) :
    analyzeLoop g cfg limited deadline p base (fuel + 1) i ms v prevEval branchSum st s =
      ((ms, v, { st with canceled := true }),
        { (pvSearch g cfg (((i : Int) + base).toNat + 1) p 0 ((i : Int) + base) ms
            (minEval - 1) (maxEval + 1)
            ({ (readClock g ({ s with st := { depth := (i : Int) + base } })).2 with
              engDepth := (i : Int) + base })).2 with
          polls := (pvSearch g cfg (((i : Int) + base).toNat + 1) p 0 ((i : Int) + base) ms
            (minEval - 1) (maxEval + 1)
            ({ (readClock g ({ s with st := { depth := (i : Int) + base } })).2 with
              engDepth := (i : Int) + base })).2.polls + 1 }) := by
  unfold analyzeLoop
  rw [if_pos hguard]
  simp only [hsome, pollCancel, hpoll, if_true]

theorem analyze_eq (g : Game) (cfg : MinimaxConfig) (limited : Bool) (deadline : Int)
    (fuel : Nat) (p : Nat) (s : EngineState) (hsz : cfg.size = g.size p) :
    analyze g cfg limited deadline fuel p s =
      AnalyzeRes.ok
        (analyzeLoop g cfg limited deadline p (analyzePrelude g cfg p s).1 fuel 1
          (analyzePrelude g cfg p s).2.1 0 0 0 {} (analyzePrelude g cfg p s).2.2.2).1.1
        (analyzeLoop g cfg limited deadline p (analyzePrelude g cfg p s).1 fuel 1
          (analyzePrelude g cfg p s).2.1 0 0 0 {} (analyzePrelude g cfg p s).2.2.2).1.2.1
        { (analyzeLoop g cfg limited deadline p (analyzePrelude g cfg p s).1 fuel 1
            (analyzePrelude g cfg p s).2.1 0 0 0 {} (analyzePrelude g cfg p s).2.2.2).1.2.2 with
          elapsed :=
            (readClock g (analyzeLoop g cfg limited deadline p (analyzePrelude g cfg p s).1 fuel 1
              (analyzePrelude g cfg p s).2.1 0 0 0 {} (analyzePrelude g cfg p s).2.2.2).2).1 -
            (analyzePrelude g cfg p s).2.2.1 }
        (readClock g (analyzeLoop g cfg limited deadline p (analyzePrelude g cfg p s).1 fuel 1
          (analyzePrelude g cfg p s).2.1 0 0 0 {} (analyzePrelude g cfg p s).2.2.2).2).2 := by
  unfold analyze
  rw [if_neg (by simp [hsz])]

/-- C10: when the first deepening iteration observes cancellation — its
search returns a nil PV, or the flag is set at the post-iteration poll —
Analyze returns value 0 (its initial value, not a search value) with
Canceled set and with the principal variation exactly the prelude seed
(first conjunct); that seed is either empty or the single stored move of
an EXACT transposition-table entry for the root hash (second conjunct);
and a GetMove caller, which indexes pv[0] on the no-randomization path,
panics when that seed is empty (third conjunct: the embedded getMove
returns none exactly on Go panics). -/
theorem c10_cancel_first_iteration :
    (∀ (g : Game) (cfg : MinimaxConfig) (limited : Bool) (deadline : Int) (fuel : Nat)
        (p : Nat) (s : EngineState),
      cfg.size = g.size p →
      ((1 : Nat) : Int) + (analyzePrelude g cfg p s).1 ≤ cfg.depth →
      ((pvSearch g cfg ((((1 : Nat) : Int) + (analyzePrelude g cfg p s).1).toNat + 1) p 0
          (((1 : Nat) : Int) + (analyzePrelude g cfg p s).1) (analyzePrelude g cfg p s).2.1
          (minEval - 1) (maxEval + 1)
          ({ (readClock g ({ (analyzePrelude g cfg p s).2.2.2 with
              st := { depth := ((1 : Nat) : Int) + (analyzePrelude g cfg p s).1 } })).2 with
            engDepth := ((1 : Nat) : Int) + (analyzePrelude g cfg p s).1 })).1.1 = none ∨
        g.cancelAt
          (pvSearch g cfg ((((1 : Nat) : Int) + (analyzePrelude g cfg p s).1).toNat + 1) p 0
            (((1 : Nat) : Int) + (analyzePrelude g cfg p s).1) (analyzePrelude g cfg p s).2.1
            (minEval - 1) (maxEval + 1)
            ({ (readClock g ({ (analyzePrelude g cfg p s).2.2.2 with
                st := { depth := ((1 : Nat) : Int) + (analyzePrelude g cfg p s).1 } })).2 with
              engDepth := ((1 : Nat) : Int) + (analyzePrelude g cfg p s).1 })).2.polls = true) →
      (analyzeValue (analyze g cfg limited deadline (fuel + 1) p s) = 0 ∧
        analyzePV (analyze g cfg limited deadline (fuel + 1) p s) =
          (analyzePrelude g cfg p s).2.1 ∧
        (analyzeStats (analyze g cfg limited deadline (fuel + 1) p s)).canceled = true)) ∧
    (∀ (g : Game) (cfg : MinimaxConfig) (p : Nat) (s : EngineState),
      (analyzePrelude g cfg p s).2.1 = [] ∨
        ∃ te, ttGet cfg s (g.hash p) = some te ∧ te.bound = Bound.exact ∧
          (analyzePrelude g cfg p s).2.1 = [te.m]) ∧
    (∀ (g : Game) (cfg : MinimaxConfig) (limited : Bool) (deadline : Int) (fuel : Nat)
        (p : Nat) (s : EngineState),
      cfg.size = g.size p → cfg.randomizeWindow = 0 →
      analyzePV (analyze g cfg limited deadline fuel p s) = [] →
      (getMove g cfg limited deadline fuel p s).1 = none) := by
  refine ⟨?_, ?_, ?_⟩
  · intro g cfg limited deadline fuel p s hsz hbase hcancel
    rcases hq : (pvSearch g cfg ((((1 : Nat) : Int) + (analyzePrelude g cfg p s).1).toNat + 1)
        p 0 (((1 : Nat) : Int) + (analyzePrelude g cfg p s).1) (analyzePrelude g cfg p s).2.1
        (minEval - 1) (maxEval + 1)
        ({ (readClock g ({ (analyzePrelude g cfg p s).2.2.2 with
            st := { depth := ((1 : Nat) : Int) + (analyzePrelude g cfg p s).1 } })).2 with
          engDepth := ((1 : Nat) : Int) + (analyzePrelude g cfg p s).1 })).1.1 with _ | next
    · rw [analyze_eq g cfg limited deadline (fuel + 1) p s hsz,
        analyzeLoop_stop_none g cfg limited deadline p (analyzePrelude g cfg p s).1 fuel 1
          (analyzePrelude g cfg p s).2.1 0 0 0 {} (analyzePrelude g cfg p s).2.2.2 hbase hq]
      simp [analyzeValue, analyzePV, analyzeStats]
    · have hpoll : g.cancelAt
          (pvSearch g cfg ((((1 : Nat) : Int) + (analyzePrelude g cfg p s).1).toNat + 1) p 0
            (((1 : Nat) : Int) + (analyzePrelude g cfg p s).1) (analyzePrelude g cfg p s).2.1
            (minEval - 1) (maxEval + 1)
            ({ (readClock g ({ (analyzePrelude g cfg p s).2.2.2 with
                st := { depth := ((1 : Nat) : Int) + (analyzePrelude g cfg p s).1 } })).2 with
              engDepth := ((1 : Nat) : Int) + (analyzePrelude g cfg p s).1 })).2.polls = true := by
        rcases hcancel with h | h
        · rw [hq] at h
          exact absurd h (by simp)
        · exact h
      rw [analyze_eq g cfg limited deadline (fuel + 1) p s hsz,
        analyzeLoop_stop_cancel g cfg limited deadline p (analyzePrelude g cfg p s).1 fuel 1
          (analyzePrelude g cfg p s).2.1 0 0 0 {} (analyzePrelude g cfg p s).2.2.2 next
          hbase hq hpoll]
      simp [analyzeValue, analyzePV, analyzeStats]
  · intro g cfg p s
    rcases hq : ttGet cfg s (g.hash p) with _ | te
    · left
      rw [analyzePrelude_pv, hq]
    · by_cases hb : te.bound = Bound.exact
      · right
        refine ⟨te, rfl, hb, ?_⟩
        rw [analyzePrelude_pv, hq]
        simp [hb]
      · left
        rw [analyzePrelude_pv, hq]
        simp [hb]
  · intro g cfg limited deadline fuel p s hsz hw hpv
    unfold getMove
    rcases hA : analyze g cfg limited deadline fuel p s with s2 | ⟨pv, v, st, s2⟩
    · rfl
    · rw [hA] at hpv
      simp only [analyzePV] at hpv
      subst hpv
      simp [hw]

theorem c10_cancel_first_iteration_witness :
    (cfgT3.size = gT10.size 0 ∧
      ((1 : Nat) : Int) + (analyzePrelude gT10 cfgT3 0 s0).1 ≤ cfgT3.depth ∧
      (pvSearch gT10 cfgT3 ((((1 : Nat) : Int) + (analyzePrelude gT10 cfgT3 0 s0).1).toNat + 1)
        0 0 (((1 : Nat) : Int) + (analyzePrelude gT10 cfgT3 0 s0).1)
        (analyzePrelude gT10 cfgT3 0 s0).2.1 (minEval - 1) (maxEval + 1)
        ({ (readClock gT10 ({ (analyzePrelude gT10 cfgT3 0 s0).2.2.2 with
            st := { depth := ((1 : Nat) : Int) + (analyzePrelude gT10 cfgT3 0 s0).1 } })).2 with
          engDepth := ((1 : Nat) : Int) + (analyzePrelude gT10 cfgT3 0 s0).1 })).1.1 = none ∧
      cfgT3.randomizeWindow = 0 ∧
      analyzePV (analyze gT10 cfgT3 false 0 (4 + 1) 0 s0) = []) ∧
    ((analyzeValue (analyze gT10 cfgT3 false 0 (4 + 1) 0 s0) = 0 ∧
        analyzePV (analyze gT10 cfgT3 false 0 (4 + 1) 0 s0) =
          (analyzePrelude gT10 cfgT3 0 s0).2.1 ∧
        (analyzeStats (analyze gT10 cfgT3 false 0 (4 + 1) 0 s0)).canceled = true) ∧
      ((analyzePrelude gT10 cfgT3 0 s0).2.1 = [] ∨
        ∃ te, ttGet cfgT3 s0 (gT10.hash 0) = some te ∧ te.bound = Bound.exact ∧
          (analyzePrelude gT10 cfgT3 0 s0).2.1 = [te.m]) ∧
      (getMove gT10 cfgT3 false 0 (4 + 1) 0 s0).1 = none) :=
  ⟨⟨by decide, by decide, by decide, by decide, by decide⟩,
    c10_cancel_first_iteration.1 gT10 cfgT3 false 0 4 0 s0 (by decide) (by decide)
      (Or.inl (by decide)),
    c10_cancel_first_iteration.2.1 gT10 cfgT3 0 s0,
    c10_cancel_first_iteration.2.2 gT10 cfgT3 false 0 (4 + 1) 0 s0 (by decide) (by decide)
      (by decide)⟩

theorem goShl1_nonneg (d : Int) (hd : d ≤ 62) : 0 ≤ goShl1 d := by
  unfold goShl1
  split
  · positivity
  · split
    · omega
    · exact le_refl 0

theorem histAdds_refl (s : EngineState) : HistAdds s s := fun _ => le_refl _

theorem histAdds_trans {s t u : EngineState} (h1 : HistAdds s t) (h2 : HistAdds t u) :
    HistAdds s u := fun k => le_trans (h1 k) (h2 k)

theorem histAdds_of_eq {s t : EngineState} (h : t.history = s.history) : HistAdds s t :=
  fun k => le_of_eq (congrFun h k).symm

theorem ttPut_history (g : Game) (cfg : MinimaxConfig) (s : EngineState) (h : Nat) :
    (ttPut g cfg s h).2.history = s.history := by
  unfold ttPut pollCancel
  split
  · rfl
  · dsimp only
    split
    · rfl
    · split <;> rfl

theorem zwTTStore_history (g : Game) (cfg : MinimaxConfig) (p : Nat) (depth α : Int)
    (best : List Move) (didCut : Bool) (s : EngineState) :
    (zwTTStore g cfg p depth α best didCut s).history = s.history := by
  unfold zwTTStore
  split
  · rename_i s2 heq
    have h3 := ttPut_history g cfg s (g.hash p)
    rw [heq] at h3
    exact h3
  · rename_i i1 s2 heq
    have h3 := ttPut_history g cfg s (g.hash p)
    rw [heq] at h3
    dsimp only
    split <;> exact h3

theorem pvTTStore_history (g : Game) (cfg : MinimaxConfig) (p : Nat) (depth α β : Int)
    (best : List Move) (improved : Bool) (s : EngineState) :
    (pvTTStore g cfg p depth α β best improved s).history = s.history := by
  unfold pvTTStore
  split
  · rename_i s2 heq
    have h3 := ttPut_history g cfg s (g.hash p)
    rw [heq] at h3
    exact h3
  · rename_i i1 s2 heq
    have h3 := ttPut_history g cfg s (g.hash p)
    rw [heq] at h3
    dsimp only
    split
    · split <;> exact h3
    · exact h3

theorem reduceSlide_history (g : Game) (cfg : MinimaxConfig) (ply : Nat) (depth : Int)
    (p : Nat) (s : EngineState) :
    (reduceSlide g cfg ply depth p s).2.history = s.history := by
  unfold reduceSlide
  split
  · dsimp only
    split
    · split <;> rfl
    · rfl
  · rfl

theorem reduceSlide_depth_le (g : Game) (cfg : MinimaxConfig) (ply : Nat) (depth : Int)
    (p : Nat) (s : EngineState) :
    (reduceSlide g cfg ply depth p s).1 ≤ depth := by
  unfold reduceSlide
  split
  · dsimp only
    split
    · split
      · omega
      · exact le_refl depth
    · exact le_refl depth
  · exact le_refl depth

theorem recordCut_history (s : EngineState) (m : Move) (move : Nat) (depth : Int)
    (ply : Nat) :
    (recordCut s m move depth ply).history =
      updF s.history m.hash (s.history m.hash + goShl1 depth) := by
  unfold recordCut
  dsimp only
  split <;> rfl

theorem recordCut_histAdds (s : EngineState) (m : Move) (move : Nat) (depth : Int)
    (ply : Nat) (hd : depth ≤ 62) : HistAdds s (recordCut s m move depth ply) := by
  intro k
  have hnn := goShl1_nonneg depth hd
  rw [recordCut_history]
  by_cases hk : k = m.hash
  · subst hk
    simp [updF]
    omega
  · simp [updF, hk]

theorem zwMultiCut_histAdds (rec : SearchFn) (ply : Nat) (depth α : Int) (cut : Bool)
    (hrec : ∀ p ply d pv α cut s, d ≤ 62 → HistAdds s (rec p ply d pv α cut s).2)
    (hd : depth - 1 - 2 ≤ 62) :
    ∀ (l : List (Move × Nat)) (cuts : Nat) (s : EngineState),
      HistAdds s (zwMultiCut rec ply depth α cut l cuts s).2 := by
  intro l
  induction l with
  | nil =>
    intro cuts s
    exact histAdds_refl s
  | cons h2 tl ih =>
    rcases h2 with ⟨m, child⟩
    intro cuts s
    unfold zwMultiCut
    dsimp only
    have h1 := hrec child (ply + 1) (depth - 1 - 2) [] (-α - 1) (!cut) s hd
    split
    · split
      · exact histAdds_trans h1 (histAdds_of_eq rfl)
      · exact histAdds_trans h1 (ih (cuts + 1) _)
    · exact histAdds_trans h1 (ih cuts _)

theorem zwMainLoop_histAdds (g : Game) (rec : SearchFn) (ply : Nat) (depth α : Int)
    (cut : Bool)
    (hrec : ∀ p ply d pv α cut s, d ≤ 62 → HistAdds s (rec p ply d pv α cut s).2)
    (hd : depth ≤ 62) :
    ∀ (l : List (Move × Nat)) (best : List Move) (i : Nat) (s : EngineState),
      HistAdds s (zwLoopOutState (zwMainLoop g rec ply depth α cut l best i s)) := by
  intro l
  induction l with
  | nil =>
    intro best i s
    exact histAdds_refl s
  | cons h2 tl ih =>
    rcases h2 with ⟨m, child⟩
    intro best i s
    unfold zwMainLoop
    dsimp only
    have h1 : ∀ pv2 : List Move, HistAdds ({ s with stackM := updF s.stackM ply m })
        (rec child (ply + 1) (depth - 1) pv2 (-α - 1) (!cut)
          ({ s with stackM := updF s.stackM ply m })).2 :=
      fun pv2 => hrec child (ply + 1) (depth - 1) pv2 (-α - 1) (!cut)
        ({ s with stackM := updF s.stackM ply m }) (by omega)
    have h0 : HistAdds s ({ s with stackM := updF s.stackM ply m }) := histAdds_of_eq rfl
    split <;> split <;>
      first
        | exact histAdds_trans h0 (histAdds_trans (h1 _) (recordCut_histAdds _ m _ depth ply hd))
        | (split <;>
            first
              | exact histAdds_trans h0 (histAdds_trans (h1 _) (histAdds_of_eq rfl))
              | exact histAdds_trans h0 (histAdds_trans (h1 _)
                  (histAdds_trans (histAdds_of_eq rfl) (ih _ _ _))))

theorem zwMain_histAdds (g : Game) (cfg : MinimaxConfig) (rec : SearchFn) (p : Nat)
    (ply : Nat) (depth : Int) (pv : List Move) (α : Int) (cut : Bool)
    (children : List (Move × Nat)) (s : EngineState)
    (hrec : ∀ p ply d pv α cut s, d ≤ 62 → HistAdds s (rec p ply d pv α cut s).2)
    (hd : depth ≤ 62) :
    HistAdds s (zwMain g cfg rec p ply depth pv α cut children s).2 := by
  unfold zwMain
  have h1 := zwMainLoop_histAdds g rec ply depth α cut hrec hd children pv 0 s
  rcases hq : zwMainLoop g rec ply depth α cut children pv 0 s with s2 | ⟨best, didCut, s2⟩
  · rw [hq] at h1
    exact h1
  · rw [hq] at h1
    rcases didCut with _ | _ <;>
      exact histAdds_trans h1
        (histAdds_of_eq (zwTTStore_history g cfg p depth α best _ s2))

theorem zwGen_histAdds (g : Game) (cfg : MinimaxConfig) (rec : SearchFn) (p : Nat)
    (ply : Nat) (depth : Int) (pv : List Move) (α : Int) (cut : Bool)
    (te : Option TableEntry) (s : EngineState)
    (hrec : ∀ p ply d pv α cut s, d ≤ 62 → HistAdds s (rec p ply d pv α cut s).2)
    (hd : depth ≤ 62) :
    HistAdds s (zwGen g cfg rec p ply depth pv α cut te s).2 := by
  unfold zwGen
  split
  · have hmc := zwMultiCut_histAdds rec ply depth α cut hrec (by omega)
      ((genChildren g ply depth p te pv).take multiCutSearch) 0
      ({ s with st.mcSearch := s.st.mcSearch + 1 })
    have h0 : HistAdds s ({ s with st.mcSearch := s.st.mcSearch + 1 }) := histAdds_of_eq rfl
    rcases hq : zwMultiCut rec ply depth α cut
        ((genChildren g ply depth p te pv).take multiCutSearch) 0
        ({ s with st.mcSearch := s.st.mcSearch + 1 }) with ⟨b, s2⟩
    rw [hq] at hmc
    rcases b with _ | _
    · exact histAdds_trans h0 (histAdds_trans hmc
        (zwMain_histAdds g cfg rec p ply depth pv α cut (genChildren g ply depth p te pv)
          s2 hrec hd))
    · exact histAdds_trans h0 hmc
  · exact zwMain_histAdds g cfg rec p ply depth pv α cut (genChildren g ply depth p te pv)
      s hrec hd

theorem zwTail_histAdds (g : Game) (cfg : MinimaxConfig) (rec : SearchFn) (p : Nat)
    (ply : Nat) (depth : Int) (pv : List Move) (α : Int) (cut : Bool)
    (te : Option TableEntry) (s : EngineState)
    (hrec : ∀ p ply d pv α cut s, d ≤ 62 → HistAdds s (rec p ply d pv α cut s).2)
    (hd : depth ≤ 62) :
    HistAdds s (zwTail g cfg rec p ply depth pv α cut te s).2 := by
  unfold zwTail
  have h1 : HistAdds s (reduceSlide g cfg ply depth p s).2 :=
    histAdds_of_eq (reduceSlide_history g cfg ply depth p s)
  have hd2 : (reduceSlide g cfg ply depth p s).1 ≤ 62 :=
    le_trans (reduceSlide_depth_le g cfg ply depth p s) hd
  exact histAdds_trans h1 (zwGen_histAdds g cfg rec p ply _ pv α cut te _ hrec hd2)

theorem zwNull_histAdds (g : Game) (cfg : MinimaxConfig) (rec : SearchFn) (p : Nat)
    (ply : Nat) (depth : Int) (pv : List Move) (α : Int) (cut : Bool)
    (te : Option TableEntry) (s : EngineState)
    (hrec : ∀ p ply d pv α cut s, d ≤ 62 → HistAdds s (rec p ply d pv α cut s).2)
    (hd : depth ≤ 62) :
    HistAdds s (zwNull g cfg rec p ply depth pv α cut te s).2 := by
  unfold zwNull
  split
  · dsimp only
    split
    · rename_i child heq
      have h1 := hrec child (ply + 1) (depth - 3) [] (-α - 1) true
        ({ ({ s with stackM := updF s.stackM ply passMove }) with
          st.nullSearch := ({ s with stackM := updF s.stackM ply passMove }).st.nullSearch + 1 })
        (by omega)
      have h0 : HistAdds s
          ({ ({ s with stackM := updF s.stackM ply passMove }) with
            st.nullSearch := ({ s with stackM := updF s.stackM ply passMove }).st.nullSearch + 1 }) :=
        histAdds_of_eq rfl
      split
      · exact histAdds_trans h0 (histAdds_trans h1 (histAdds_of_eq rfl))
      · exact histAdds_trans h0 (histAdds_trans h1
          (zwTail_histAdds g cfg rec p ply depth pv α cut te _ hrec hd))
    · exact histAdds_trans (histAdds_of_eq rfl)
        (zwTail_histAdds g cfg rec p ply depth pv α cut te
          ({ s with stackM := updF s.stackM ply passMove }) hrec hd)
  · exact zwTail_histAdds g cfg rec p ply depth pv α cut te s hrec hd

theorem zwStep_histAdds (g : Game) (cfg : MinimaxConfig) (rec : SearchFn) (p : Nat)
    (ply : Nat) (depth : Int) (pv : List Move) (α : Int) (cut : Bool) (s : EngineState)
    (hrec : ∀ p ply d pv α cut s, d ≤ 62 → HistAdds s (rec p ply d pv α cut s).2)
    (hd : depth ≤ 62) :
    HistAdds s (zwStep g cfg rec p ply depth pv α cut s).2 := by
  unfold zwStep
  split
  · exact histAdds_of_eq rfl
  · dsimp only
    split
    · try dsimp only
      split
      · split
        · exact histAdds_of_eq rfl
        · exact histAdds_trans (histAdds_of_eq rfl)
            (zwNull_histAdds g cfg rec p ply depth pv α cut none _ hrec hd)
      · exact histAdds_trans (histAdds_of_eq rfl)
          (zwNull_histAdds g cfg rec p ply depth pv α cut _ _ hrec hd)
    · exact histAdds_trans (histAdds_of_eq rfl)
        (zwNull_histAdds g cfg rec p ply depth pv α cut none _ hrec hd)

theorem zwSearch_histAdds (g : Game) (cfg : MinimaxConfig) :
    ∀ (fuel : Nat) (p ply : Nat) (depth : Int) (pv : List Move) (α : Int) (cut : Bool)
      (s : EngineState), depth ≤ 62 →
      HistAdds s (zwSearch g cfg fuel p ply depth pv α cut s).2 := by
  intro fuel
  induction fuel with
  | zero =>
    intro p ply depth pv α cut s _
    exact histAdds_refl s
  | succ n ih =>
    intro p ply depth pv α cut s hd
    exact zwStep_histAdds g cfg (zwSearch g cfg n) p ply depth pv α cut s
      (fun p ply d pv α cut s hdd => ih p ply d pv α cut s hdd) hd

theorem pvChildSearch_histAdds (recPv : PvFn) (recZw : SearchFn) (ply : Nat)
    (depth β : Int) (newpv : List Move) (α : Int) (i : Nat) (child : Nat) (s : EngineState)
    (hrecPv : ∀ p ply d pv α β s, d ≤ 62 → HistAdds s (recPv p ply d pv α β s).2)
    (hrecZw : ∀ p ply d pv α cut s, d ≤ 62 → HistAdds s (recZw p ply d pv α cut s).2)
    (hd : depth ≤ 62) :
    HistAdds s (pvChildSearch recPv recZw ply depth β newpv α i child s).2 := by
  unfold pvChildSearch
  split
  · dsimp only
    have h1 := hrecZw child (ply + 1) (depth - 1) newpv (-α - 1) true s (by omega)
    split
    · exact histAdds_trans h1 (histAdds_trans (histAdds_of_eq rfl)
        (hrecPv child (ply + 1) (depth - 1) newpv (-β) (-α) _ (by omega)))
    · exact h1
  · exact hrecPv child (ply + 1) (depth - 1) newpv (-β) (-α) s (by omega)

theorem pvMainLoop_histAdds (g : Game) (recPv : PvFn) (recZw : SearchFn) (ply : Nat)
    (depth β : Int)
    (hrecPv : ∀ p ply d pv α β s, d ≤ 62 → HistAdds s (recPv p ply d pv α β s).2)
    (hrecZw : ∀ p ply d pv α cut s, d ≤ 62 → HistAdds s (recZw p ply d pv α cut s).2)
    (hd : depth ≤ 62) :
    ∀ (l : List (Move × Nat)) (best : List Move) (α : Int) (improved : Bool) (i : Nat)
      (s : EngineState),
      HistAdds s (pvLoopOutState (pvMainLoop g recPv recZw ply depth β l best α improved i s)) := by
  intro l
  induction l with
  | nil =>
    intro best α improved i s
    exact histAdds_refl s
  | cons h2 tl ih =>
    rcases h2 with ⟨m, child⟩
    intro best α improved i s
    unfold pvMainLoop
    dsimp only
    have h0 : HistAdds s ({ s with stackM := updF s.stackM ply m }) := histAdds_of_eq rfl
    have h1 : ∀ pv2 : List Move, HistAdds ({ s with stackM := updF s.stackM ply m })
        (pvChildSearch recPv recZw ply depth β pv2 α (i + 1) child
          ({ s with stackM := updF s.stackM ply m })).2 :=
      fun pv2 => pvChildSearch_histAdds recPv recZw ply depth β pv2 α (i + 1) child
        ({ s with stackM := updF s.stackM ply m }) hrecPv hrecZw hd
    split <;> split <;>
      first
        | (split <;>
            first
              | exact histAdds_trans h0 (histAdds_trans (h1 _)
                  (recordCut_histAdds _ m _ depth ply hd))
              | (split <;>
                  first
                    | exact histAdds_trans h0 (histAdds_trans (h1 _) (histAdds_of_eq rfl))
                    | exact histAdds_trans h0 (histAdds_trans (h1 _)
                        (histAdds_trans (histAdds_of_eq rfl) (ih _ _ _ _ _)))))
        | (split <;>
            first
              | exact histAdds_trans h0 (histAdds_trans (h1 _) (histAdds_of_eq rfl))
              | exact histAdds_trans h0 (histAdds_trans (h1 _)
                  (histAdds_trans (histAdds_of_eq rfl) (ih _ _ _ _ _))))

theorem pvStep_histAdds (g : Game) (cfg : MinimaxConfig) (recPv : PvFn) (recZw : SearchFn)
    (p : Nat) (ply : Nat) (depth : Int) (pv : List Move) (α β : Int) (s : EngineState)
    (hrecPv : ∀ p ply d pv α β s, d ≤ 62 → HistAdds s (recPv p ply d pv α β s).2)
    (hrecZw : ∀ p ply d pv α cut s, d ≤ 62 → HistAdds s (recZw p ply d pv α cut s).2)
    (hd : depth ≤ 62) :
    HistAdds s (pvStep g cfg recPv recZw p ply depth pv α β s).2 := by
  have hcont : ∀ (te : Option TableEntry) (s2 : EngineState),
      HistAdds s2 ((match
          pvMainLoop g recPv recZw ply depth β (genChildren g ply depth p te pv) pv α false 0 s2 with
        | PvLoopOut.canceled s => (((none : Option (List Move)), (0 : Int)), s)
        | PvLoopOut.done best α improved s =>
          ((some best, α), pvTTStore g cfg p depth α β best improved s)) : SearchRes).2 := by
    intro te s2
    have h1 := pvMainLoop_histAdds g recPv recZw ply depth β hrecPv hrecZw hd
      (genChildren g ply depth p te pv) pv α false 0 s2
    rcases hq : pvMainLoop g recPv recZw ply depth β (genChildren g ply depth p te pv)
        pv α false 0 s2 with s3 | ⟨best, α2, improved, s3⟩
    · rw [hq] at h1
      exact h1
    · rw [hq] at h1
      exact histAdds_trans h1
        (histAdds_of_eq (pvTTStore_history g cfg p depth α2 β best improved s3))
  unfold pvStep
  split
  · exact histAdds_of_eq rfl
  · dsimp only
    by_cases hβ : β = α + 1
    · rw [if_pos hβ]
      split
      · dsimp only
        split
        · split
          · exact histAdds_of_eq rfl
          · exact histAdds_trans (histAdds_of_eq rfl) (hcont none _)
        · exact histAdds_trans (histAdds_of_eq rfl) (hcont _ _)
      · exact histAdds_trans (histAdds_of_eq rfl) (hcont none _)
    · rw [if_neg hβ]
      split
      · dsimp only
        split
        · split
          · exact histAdds_of_eq rfl
          · exact histAdds_trans (histAdds_of_eq rfl) (hcont none _)
        · exact histAdds_trans (histAdds_of_eq rfl) (hcont _ _)
      · exact histAdds_trans (histAdds_of_eq rfl) (hcont none _)

theorem pvSearch_histAdds (g : Game) (cfg : MinimaxConfig) :
    ∀ (fuel : Nat) (p ply : Nat) (depth : Int) (pv : List Move) (α β : Int)
      (s : EngineState), depth ≤ 62 →
      HistAdds s (pvSearch g cfg fuel p ply depth pv α β s).2 := by
  intro fuel
  induction fuel with
  | zero =>
    intro p ply depth pv α β s _
    exact histAdds_refl s
  | succ n ih =>
    intro p ply depth pv α β s hd
    exact pvStep_histAdds g cfg (pvSearch g cfg n) (zwSearch g cfg n) p ply depth pv α β s
      (fun p ply d pv α β s hdd => ih p ply d pv α β s hdd)
      (fun p ply d pv α cut s hdd => zwSearch_histAdds g cfg n p ply d pv α cut s hdd) hd

theorem analyzeDeadlineCheck_history (g : Game) (cfg : MinimaxConfig) (limited : Bool)
    (deadline base : Int) (i : Nat) (branchSum : Nat) (start : Int) (s : EngineState) :
    (analyzeDeadlineCheck g cfg limited deadline base i branchSum start s).2.history =
      s.history := by
  unfold analyzeDeadlineCheck
  split <;> rfl

theorem analyzePrelude_history (g : Game) (cfg : MinimaxConfig) (p : Nat) (s : EngineState)
    (k : Nat) :
    (analyzePrelude g cfg p s).2.2.2.history k = goDiv (s.history k) 2 := by
  unfold analyzePrelude
  by_cases hseed : cfg.seed = 0
  · simp only [readClock, hseed, ite_true]
    split
    · rename_i te heq
      by_cases hb : te.bound = Bound.exact <;> simp only [hb, ite_true, ite_false]
    · rfl
  · simp only [readClock, hseed, ite_false]
    split
    · rename_i te heq
      by_cases hb : te.bound = Bound.exact <;> simp only [hb, ite_true, ite_false]
    · rfl

theorem analyzeLoop_histAdds (g : Game) (cfg : MinimaxConfig) (limited : Bool)
    (deadline : Int) (p : Nat) (base : Int) (hd : cfg.depth ≤ 62) :
    ∀ (fuel i : Nat) (ms : List Move) (v : Int) (prevEval branchSum : Nat) (st : Stats)
      (s : EngineState),
      HistAdds s
        (analyzeLoop g cfg limited deadline p base fuel i ms v prevEval branchSum st s).2 := by
  intro fuel
  induction fuel with
  | zero =>
    intro i ms v prevEval branchSum st s
    exact histAdds_refl s
  | succ n ih =>
    intro i ms v prevEval branchSum st s
    unfold analyzeLoop
    split
    · rename_i hguard
      dsimp only
      have hp : HistAdds s
          (pvSearch g cfg (((i : Int) + base).toNat + 1) p 0 ((i : Int) + base) ms
            (minEval - 1) (maxEval + 1)
            ({ (readClock g ({ s with st := { depth := (i : Int) + base } })).2 with
              engDepth := (i : Int) + base })).2 :=
        histAdds_trans (histAdds_of_eq rfl)
          (pvSearch_histAdds g cfg (((i : Int) + base).toNat + 1) p 0 ((i : Int) + base) ms
            (minEval - 1) (maxEval + 1) _ (le_trans hguard hd))
      split
      · exact hp
      · split
        · exact histAdds_trans hp (histAdds_of_eq rfl)
        · try dsimp only
          split
          · exact histAdds_trans hp (histAdds_of_eq rfl)
          · split <;> split
            all_goals first
              | exact histAdds_trans hp
                  (histAdds_of_eq (by rw [analyzeDeadlineCheck_history]; rfl))
              | exact histAdds_trans hp
                  (histAdds_trans (histAdds_of_eq (by rw [analyzeDeadlineCheck_history]; rfl))
                    (ih _ _ _ _ _ _ _))
    · exact histAdds_refl s

theorem analyze_hist (g : Game) (cfg : MinimaxConfig) (limited : Bool) (deadline : Int)
    (loopFuel : Nat) (p : Nat) (s : EngineState) (k : Nat)
    (hd : cfg.depth ≤ 62) (hsz : cfg.size = g.size p) :
    ∃ c : Int, 0 ≤ c ∧
      (analyzeState (analyze g cfg limited deadline loopFuel p s)).history k =
        goDiv (s.history k) 2 + c := by
  have h0 : (analyzePrelude g cfg p s).2.2.2.history k = goDiv (s.history k) 2 :=
    analyzePrelude_history g cfg p s k
  have h2 := analyzeLoop_histAdds g cfg limited deadline p (analyzePrelude g cfg p s).1 hd
    loopFuel 1 (analyzePrelude g cfg p s).2.1 0 0 0 {} (analyzePrelude g cfg p s).2.2.2 k
  rw [h0] at h2
  have h3 : (analyzeState (analyze g cfg limited deadline loopFuel p s)).history k =
      (analyzeLoop g cfg limited deadline p (analyzePrelude g cfg p s).1 loopFuel 1
        (analyzePrelude g cfg p s).2.1 0 0 0 {} (analyzePrelude g cfg p s).2.2.2).2.history k := by
    unfold analyze
    rw [if_neg (fun h4 => h4 hsz)]
    rfl
  exact ⟨(analyzeLoop g cfg limited deadline p (analyzePrelude g cfg p s).1 loopFuel 1
      (analyzePrelude g cfg p s).2.1 0 0 0 {} (analyzePrelude g cfg p s).2.2.2).2.history k -
      goDiv (s.history k) 2, by omega, by rw [h3]; omega⟩

theorem goDiv_two_nonneg (a : Int) (h : 0 ≤ a) : 0 ≤ goDiv a 2 :=
  Int.tdiv_nonneg h (by norm_num)

theorem goDiv_two_mul_le (a : Int) (h : 0 ≤ a) : goDiv a 2 * 2 ≤ a := by
  unfold goDiv
  rw [Int.tdiv_eq_ediv h (by norm_num)]
  exact Int.ediv_mul_le a (by norm_num)

/-- C7: history ageing.  Every Analyze call first integer-divides every
history counter by 2 (analyzePrelude), and afterwards the counters only
grow, by nonnegative beta-cut increments of 1 << depth (recordCut); hence
over any sequence of Analyze calls on matching sizes, the final value of a
counter is the left fold of halve-then-add over one nonnegative per-call
increment each, a nonnegative counter stays nonnegative, and a counter
never incremented by a cut ends at most its initial value divided by 2^N
(stated multiplicatively: final * 2^N is at most the initial value). -/
theorem c7_history_ageing (g : Game) (cfg : MinimaxConfig) (hd : cfg.depth ≤ 62) :
    ∀ (calls : List AnalyzeCall) (s : EngineState) (k : Nat),
      (∀ c ∈ calls, cfg.size = g.size c.p) →
      ∃ cs : List Int,
        cs.length = calls.length ∧
        (∀ x ∈ cs, 0 ≤ x) ∧
        (runAnalyzes g cfg calls s).history k =
          cs.foldl (fun v x => goDiv v 2 + x) (s.history k) ∧
        (0 ≤ s.history k → 0 ≤ (runAnalyzes g cfg calls s).history k) ∧
        ((∀ x ∈ cs, x = 0) → 0 ≤ s.history k →
          (runAnalyzes g cfg calls s).history k * 2 ^ calls.length ≤ s.history k) := by
  intro calls
  induction calls with
  | nil =>
    intro s k _
    exact ⟨[], rfl, by simp, rfl, fun h => h, fun _ _ => by simp [runAnalyzes]⟩
  | cons c rest ih =>
    intro s k hsz
    obtain ⟨c0, hc0, heq⟩ := analyze_hist g cfg c.limited c.deadline c.fuel c.p s k hd
      (hsz c (List.mem_cons_self c rest))
    obtain ⟨cs, hlen, hpos, hfold, hnn, hbound⟩ :=
      ih (analyzeState (analyze g cfg c.limited c.deadline c.fuel c.p s)) k
        (fun c2 h2 => hsz c2 (List.mem_cons_of_mem c h2))
    have hrun : runAnalyzes g cfg (c :: rest) s =
        runAnalyzes g cfg rest
          (analyzeState (analyze g cfg c.limited c.deadline c.fuel c.p s)) := rfl
    refine ⟨c0 :: cs, by simp [hlen], ?_, ?_, ?_, ?_⟩
    · intro x hx
      rcases List.mem_cons.mp hx with h | h
      · exact h ▸ hc0
      · exact hpos x h
    · rw [hrun, hfold, List.foldl_cons, heq]
    · intro hinit
      rw [hrun]
      apply hnn
      rw [heq]
      have := goDiv_two_nonneg (s.history k) hinit
      omega
    · intro hall hinit
      have hc00 : c0 = 0 := hall c0 (List.mem_cons_self c0 cs)
      have hs1 : (analyzeState (analyze g cfg c.limited c.deadline c.fuel c.p s)).history k =
          goDiv (s.history k) 2 := by rw [heq, hc00, add_zero]
      have hs1nn :
          0 ≤ (analyzeState (analyze g cfg c.limited c.deadline c.fuel c.p s)).history k := by
        rw [hs1]
        exact goDiv_two_nonneg (s.history k) hinit
      have hb := hbound (fun x hx => hall x (List.mem_cons_of_mem c0 hx)) hs1nn
      rw [hs1] at hb
      rw [hrun]
      calc (runAnalyzes g cfg rest
              (analyzeState (analyze g cfg c.limited c.deadline c.fuel c.p s))).history k *
            2 ^ (c :: rest).length
          = (runAnalyzes g cfg rest
              (analyzeState (analyze g cfg c.limited c.deadline c.fuel c.p s))).history k *
            2 ^ rest.length * 2 := by rw [List.length_cons, pow_succ]; ring
        _ ≤ goDiv (s.history k) 2 * 2 := mul_le_mul_of_nonneg_right hb (by norm_num)
        _ ≤ s.history k := goDiv_two_mul_le (s.history k) hinit

theorem c7_history_ageing_witness :
    cfgT3.depth ≤ 62 ∧
    (∀ c ∈ [({ limited := false, deadline := 0, fuel := 1, p := 0 } : AnalyzeCall)],
      cfgT3.size = gT.size c.p) ∧
    ∃ cs : List Int,
      cs.length =
        ([({ limited := false, deadline := 0, fuel := 1, p := 0 } : AnalyzeCall)]).length ∧
      (∀ x ∈ cs, 0 ≤ x) ∧
      (runAnalyzes gT cfgT3
          [({ limited := false, deadline := 0, fuel := 1, p := 0 } : AnalyzeCall)] sH).history 0 =
        cs.foldl (fun v x => goDiv v 2 + x) (sH.history 0) ∧
      (0 ≤ sH.history 0 →
        0 ≤ (runAnalyzes gT cfgT3
          [({ limited := false, deadline := 0, fuel := 1, p := 0 } : AnalyzeCall)] sH).history 0) ∧
      ((∀ x ∈ cs, x = 0) → 0 ≤ sH.history 0 →
        (runAnalyzes gT cfgT3
            [({ limited := false, deadline := 0, fuel := 1, p := 0 } : AnalyzeCall)] sH).history 0 *
          2 ^ ([({ limited := false, deadline := 0, fuel := 1, p := 0 } : AnalyzeCall)]).length ≤
          sH.history 0) :=
  ⟨by decide, by decide,
    c7_history_ageing gT cfgT3 (by decide)
      [({ limited := false, deadline := 0, fuel := 1, p := 0 } : AnalyzeCall)] sH 0 (by decide)⟩

end Minimax
